import Mathlib

/-!
Verification of the spirit-tracker-api email alert pipeline.

This file gives a shallow embedding, in Lean, of the parts of the
TypeScript source relevant to the email alert pipeline:

* the event matcher (`src/index.ts`: `ruleAcrossMarket`, `skuInShortlist`,
  `ruleMatchesEvent`, `matchEventsForUser`),
* the event-pack validator (`src/validate.ts`: `assertSku`,
  `validateEmailEventPackV1`'s event loop),
* the SMTP client (`src/smtp.ts`: `dotStuff`, `sendMailSmtp`),
* the delivery orchestrator (`src/index.ts`: `handleEmailPack`'s send loop).

Modelling conventions:

* JavaScript strings are Lean `String`s; `localeCompare` is modelled as
  code-point lexicographic comparison (`strCmp`), and `toLowerCase` /
  `toUpperCase` as the character-wise Lean functions.
* JavaScript numbers appearing in packs and rules are modelled as `Int`
  (all inputs arrive as JSON, so they are finite; no claim here depends
  on fractional values).
* JS `Map` objects are modelled as insertion-ordered association lists;
  JS `Set` objects as lists queried only through membership.
* `Array.prototype.sort` (stable since ES2019) is modelled as
  `List.mergeSort`, which is stable.
* Fallible code returns `Except String`.
-/

unseal List.merge List.mergeSort

open List (Sublist Perm) in
theorem list_sublist_perm_notation_available : True := trivial

namespace SpiritTracker

open scoped List

/-! ### Code-point string comparison (model of `localeCompare`) -/

/-- Lexicographic comparison of character lists by code point. -/
def lexCmpChars : List Char → List Char → Ordering
  | [], [] => .eq
  | [], _ :: _ => .lt
  | _ :: _, [] => .gt
  | a :: as, b :: bs =>
    if a < b then .lt else if b < a then .gt else lexCmpChars as bs

/-- Model of `a.localeCompare(b)`: code-point lexicographic comparison. -/
def strCmp (a b : String) : Ordering :=
  lexCmpChars a.data b.data

theorem lexCmpChars_swap (a b : List Char) :
    lexCmpChars b a = (lexCmpChars a b).swap := by
  induction a generalizing b with
  | nil => cases b <;> simp [lexCmpChars, Ordering.swap]
  | cons x xs ih =>
    cases b with
    | nil => simp [lexCmpChars, Ordering.swap]
    | cons y ys =>
      by_cases h1 : x < y
      · have h2 : ¬ y < x := lt_asymm h1
        simp [lexCmpChars, h1, h2, Ordering.swap]
      · by_cases h2 : y < x
        · simp [lexCmpChars, h1, h2, Ordering.swap]
        · simp [lexCmpChars, h1, h2, ih]

theorem lexCmpChars_eq_iff (a b : List Char) :
    lexCmpChars a b = .eq ↔ a = b := by
  induction a generalizing b with
  | nil => cases b <;> simp [lexCmpChars]
  | cons x xs ih =>
    cases b with
    | nil => simp [lexCmpChars]
    | cons y ys =>
      by_cases h1 : x < y
      · simp only [lexCmpChars, h1, if_true]
        constructor
        · intro h; cases h
        · rintro ⟨rfl, rfl⟩; exact absurd h1 (lt_irrefl x)
      · by_cases h2 : y < x
        · simp only [lexCmpChars, h1, if_false, h2, if_true]
          constructor
          · intro h; cases h
          · rintro ⟨rfl, rfl⟩; exact absurd h2 (lt_irrefl x)
        · have hxy : x = y := le_antisymm (not_lt.mp h2) (not_lt.mp h1)
          subst hxy
          simp [lexCmpChars, h1, ih]

theorem lexCmpChars_trans_not_gt {a b c : List Char}
    (h1 : lexCmpChars a b ≠ .gt) (h2 : lexCmpChars b c ≠ .gt) :
    lexCmpChars a c ≠ .gt := by
  induction a generalizing b c with
  | nil => cases c <;> simp [lexCmpChars]
  | cons x xs ih =>
    cases b with
    | nil => cases c <;> simp_all [lexCmpChars]
    | cons y ys =>
      cases c with
      | nil => simp [lexCmpChars] at h2
      | cons z zs =>
        simp only [lexCmpChars] at h1 h2 ⊢
        by_cases hxy : x < y
        · by_cases hyz : y < z
          · have hxz : x < z := lt_trans hxy hyz
            simp [hxz]
          · by_cases hzy : z < y
            · simp [hyz, hzy] at h2
            · have : y = z := le_antisymm (not_lt.mp hzy) (not_lt.mp hyz)
              subst this
              simp [hxy]
        · by_cases hyx : y < x
          · simp [hxy, hyx] at h1
          · have hxyeq : x = y := le_antisymm (not_lt.mp hyx) (not_lt.mp hxy)
            subst hxyeq
            simp only [hxy, if_false] at h1 ⊢
            by_cases hyz : x < z
            · simp [hyz]
            · by_cases hzy : z < x
              · simp [hyz, hzy] at h2
              · simp only [hyz, hzy, if_false] at h2 ⊢
                exact ih (by simpa [hxy] using h1) h2

theorem strCmp_swap (a b : String) : strCmp b a = (strCmp a b).swap :=
  lexCmpChars_swap a.data b.data

theorem strCmp_eq_iff (a b : String) : strCmp a b = .eq ↔ a = b := by
  unfold strCmp
  rw [lexCmpChars_eq_iff]
  constructor
  · intro h
    cases a; cases b; exact congrArg String.mk h
  · rintro rfl; rfl

theorem strCmp_trans_not_gt {a b c : String}
    (h1 : strCmp a b ≠ .gt) (h2 : strCmp b c ≠ .gt) : strCmp a c ≠ .gt :=
  lexCmpChars_trans_not_gt h1 h2

theorem strCmp_total (a b : String) : strCmp a b ≠ .gt ∨ strCmp b a ≠ .gt := by
  cases h : strCmp a b with
  | lt => exact Or.inl (by simp [h])
  | eq => exact Or.inl (by simp [h])
  | gt => exact Or.inr (by rw [strCmp_swap, h]; simp [Ordering.swap])

/-! ### Data model of the email alert pipeline (src/types.ts, src/index.ts) -/

/-- `EmailRuleV1.filters` (src/types.ts); numeric thresholds modelled as `Int`. -/
structure EmailRuleFilters where
  keywordsAny : Option (List String) := none
  keywordsNone : Option (List String) := none
  storeId : Option String := none
  acrossMarket : Option Bool := none
  minDropAbs : Option Int := none
  minDropPct : Option Int := none
  requireCheapestNow : Option Bool := none
deriving DecidableEq, Repr

/-- `EmailRuleV1` (src/types.ts). `scope` is `"all"` or `"shortlist"`. -/
structure EmailRuleV1 where
  id : String
  enabled : Bool
  scope : String
  eventType : String
  filters : Option EmailRuleFilters := none
deriving DecidableEq, Repr

/-- `EmailPackSkuV1` restricted to the fields the matcher reads
(price-range / offer fields are only used by the digest renderer). -/
structure EmailPackSkuV1 where
  sku : String
  name : String
  img : String
  members : List String
deriving DecidableEq, Repr

/-- A validated event of an email event pack (`EmailPackEventV1`).
`dropPct` distinguishes a number (`some (some p)`), JSON `null`
(`some none`) and an absent field (`none`). -/
structure EmailPackEventV1 where
  id : String
  marketId : String
  eventType : String
  sku : String
  storeId : String
  storeLabel : String
  listingUrl : String
  marketNew : Bool
  marketReturn : Bool
  marketOut : Bool
  baseInStockCount : Int := 0
  headInStockCount : Int := 0
  oldPrice : Option String := none
  newPrice : Option String := none
  dropAbs : Option Int := none
  dropPct : Option (Option Int) := none
  isCheapestNow : Bool := false
deriving DecidableEq, Repr

/-- A validated email event pack; `skus` models the JS object as an
association list keyed by canonical SKU. -/
structure EmailEventPackV1 where
  generatedAt : String := ""
  skus : List (String × EmailPackSkuV1) := []
  events : List EmailPackEventV1 := []
deriving DecidableEq, Repr

/-- `MatchedEmailEvent` (src/index.ts). -/
structure MatchedEmailEvent where
  eventId : String
  marketId : String
  eventType : String
  sku : String
  skuName : String
  skuImg : String
  storeId : String
  storeLabel : String
  listingUrl : String
  marketNew : Bool
  marketReturn : Bool
  marketOut : Bool
  oldPrice : Option String := none
  newPrice : Option String := none
  dropAbs : Option Int := none
  dropPct : Option (Option Int) := none
  isCheapestNow : Bool := false
  matchedRuleIds : List String
deriving DecidableEq, Repr

/-! ### The matcher (src/index.ts lines 331-494) -/

/-- JS `String.prototype.trim`: strip leading and trailing whitespace
(modelled on the character list). -/
def jsTrim (s : String) : String :=
  String.mk (((s.data.dropWhile Char.isWhitespace).reverse.dropWhile
    Char.isWhitespace).reverse)

/-- `lc` (src/index.ts): lower-casing, character-wise. -/
def lc (s : String) : String := String.mk (s.data.map Char.toLower)

/-- Substring occurrence test on character lists. -/
def charsIncludes (pat : List Char) : List Char → Bool
  | [] => pat.isPrefixOf []
  | c :: rest => pat.isPrefixOf (c :: rest) || charsIncludes pat rest

/-- Model of `String.prototype.includes` (substring test). -/
def strIncludes (s pat : String) : Bool := charsIncludes pat.data s.data

/-- `ruleAcrossMarket` (src/index.ts lines 335-346). Note the order:
`PRICE_DROP` is forced to `false` before `filters.acrossMarket` is read. -/
def ruleAcrossMarket (rule : EmailRuleV1) : Bool :=
  if rule.eventType = "PRICE_DROP" then false
  else
    match (rule.filters.getD {}).acrossMarket with
    | some b => b
    | none => rule.eventType == "GLOBAL_NEW"

/-- `skuInShortlist` (src/index.ts lines 348-359). `favs` models the JS
`Set<string>`, queried only through emptiness and membership. -/
def skuInShortlist (pack : EmailEventPackV1) (canonSku : String)
    (favs : List String) : Bool :=
  if favs.isEmpty then false
  else
    match pack.skus.lookup canonSku with
    | none => false
    | some s => favs.contains s.sku || s.members.any (fun m => favs.contains m)

/-- The PRICE_DROP threshold block of `ruleMatchesEvent`
(src/index.ts lines 407-418), as the condition under which the rule
rejects the event. -/
def priceDropFilterFails (f : EmailRuleFilters) (ev : EmailPackEventV1) : Bool :=
  (match f.minDropAbs with
   | some m => match ev.dropAbs with
     | some d => decide (d < m)
     | none => true
   | none => false)
  || (match f.minDropPct with
      | some m => match ev.dropPct with
        | some (some p) => decide (p < m)
        | _ => true
      | none => false)
  || (f.requireCheapestNow == some true && !ev.isCheapestNow)

/-- `ruleMatchesEvent` (src/index.ts lines 361-421). -/
def ruleMatchesEvent (pack : EmailEventPackV1) (rule : EmailRuleV1)
    (ev : EmailPackEventV1) (favs : List String) : Bool :=
  if !rule.enabled then false
  else if ev.eventType != rule.eventType then false
  else
    let skuObj := pack.skus.lookup ev.sku
    let nameL := lc ((skuObj.map (fun s => s.name)).getD "")
    if rule.scope == "shortlist" && !skuInShortlist pack ev.sku favs then false
    else
      let f := rule.filters.getD {}
      if (match f.storeId with
          | some s => jsTrim s != "" && ev.storeId != jsTrim s
          | none => false) then false
      else if (match f.keywordsAny with
          | some ks =>
            !ks.isEmpty &&
              !ks.any (fun k =>
                let kk := jsTrim (lc k)
                if kk != "" then strIncludes nameL kk else false)
          | none => false) then false
      else if (match f.keywordsNone with
          | some ks =>
            !ks.isEmpty &&
              ks.any (fun k =>
                let kk := jsTrim (lc k)
                if kk != "" then strIncludes nameL kk else false)
          | none => false) then false
      else if (ruleAcrossMarket rule &&
          ((rule.eventType == "GLOBAL_NEW" && !ev.marketNew)
            || (rule.eventType == "GLOBAL_RETURN" && !ev.marketReturn)
            || (rule.eventType == "OUT_OF_STOCK" && !ev.marketOut))) then false
      else if (rule.eventType == "PRICE_DROP" && priceDropFilterFails f ev) then false
      else true

/-- Construction of the `MatchedEmailEvent` record `m`
(src/index.ts lines 435-457). -/
def mkMatched (pack : EmailEventPackV1) (rule : EmailRuleV1)
    (ev : EmailPackEventV1) : MatchedEmailEvent :=
  let skuObj := pack.skus.lookup ev.sku
  { eventId := ev.id
    marketId := ev.marketId
    eventType := ev.eventType
    sku := ev.sku
    skuName := (skuObj.map (fun s => s.name)).getD ""
    skuImg := (skuObj.map (fun s => s.img)).getD ""
    storeId := ev.storeId
    storeLabel := ev.storeLabel
    listingUrl := ev.listingUrl
    marketNew := ev.marketNew
    marketReturn := ev.marketReturn
    marketOut := ev.marketOut
    oldPrice := ev.oldPrice
    newPrice := ev.newPrice
    dropAbs := ev.dropAbs
    dropPct := ev.dropPct
    isCheapestNow := ev.isCheapestNow
    matchedRuleIds := [rule.id] }

/-- Key of the market-level map `byMarket`:
`m.marketId || eventType|sku` (src/index.ts line 460). -/
def marketKey (m : MatchedEmailEvent) : String :=
  if m.marketId != "" then m.marketId else m.eventType ++ "|" ++ m.sku

/-- Key of the store-level map `byId`:
`m.eventId || eventType|sku|storeId` (src/index.ts line 468). -/
def storeKey (m : MatchedEmailEvent) : String :=
  if m.eventId != "" then m.eventId
  else m.eventType ++ "|" ++ m.sku ++ "|" ++ m.storeId

/-- One (rule, event) match, as fed into the two deduplicating maps:
the effective `acrossMarket` of the rule, the rule id, and the built
`MatchedEmailEvent`. -/
structure DItem where
  across : Bool
  rid : String
  m : MatchedEmailEvent
deriving DecidableEq, Repr

/-- `cur.matchedRuleIds.push(rule.id)` guarded by `includes`
(src/index.ts lines 464-465 and 472-473). -/
def addRid (v : MatchedEmailEvent) (rid : String) : MatchedEmailEvent :=
  if v.matchedRuleIds.contains rid then v
  else { v with matchedRuleIds := v.matchedRuleIds ++ [rid] }

/-- Insertion into one of the JS `Map`s, modelled as an
insertion-ordered association list. -/
def insertAssoc (m : List (String × MatchedEmailEvent)) (k rid : String)
    (v : MatchedEmailEvent) : List (String × MatchedEmailEvent) :=
  match m.lookup k with
  | none => m ++ [(k, v)]
  | some _ => m.map (fun kv => if kv.1 == k then (kv.1, addRid kv.2 rid) else kv)

/-- One iteration of the matcher loop's map updates
(src/index.ts lines 459-475). -/
def buildStep
    (maps : List (String × MatchedEmailEvent) × List (String × MatchedEmailEvent))
    (it : DItem) :
    List (String × MatchedEmailEvent) × List (String × MatchedEmailEvent) :=
  if it.across then (insertAssoc maps.1 (marketKey it.m) it.rid it.m, maps.2)
  else (maps.1, insertAssoc maps.2 (storeKey it.m) it.rid it.m)

/-- The two-map accumulation of the matcher loop
(src/index.ts lines 459-475): first component `byMarket`, second `byId`. -/
def buildMaps (items : List DItem) :
    List (String × MatchedEmailEvent) × List (String × MatchedEmailEvent) :=
  items.foldl buildStep ([], [])

/-- The stream of matches produced by the nested rule/event loops of
`matchEventsForUser` (src/index.ts lines 427-457), in iteration order. -/
def matchStream (pack : EmailEventPackV1) (rules : List EmailRuleV1)
    (favs : List String) : List DItem :=
  rules.flatMap (fun rule =>
    if !rule.enabled then []
    else
      (pack.events.filter (fun ev => ruleMatchesEvent pack rule ev favs)).map
        (fun ev => ⟨ruleAcrossMarket rule, rule.id, mkMatched pack rule ev⟩))

/-- The sort comparator of `matchEventsForUser` (src/index.ts lines 485-491),
with `localeCompare` modelled as code-point comparison. -/
def matchCmp (a b : MatchedEmailEvent) : Ordering :=
  match strCmp a.eventType b.eventType with
  | .eq =>
    match strCmp a.skuName b.skuName with
    | .eq => strCmp a.storeId b.storeId
    | o => o
  | o => o

/-- `a` sorts no later than `b` under the matcher's comparator. -/
def matchLe (a b : MatchedEmailEvent) : Bool := matchCmp a b != .gt

/-- The set of `marketId`s represented by store-level matches
(src/index.ts line 480): note the `filter(Boolean)` dropping `""`. -/
def storeMarketIds (byId : List (String × MatchedEmailEvent)) : List String :=
  (byId.map (fun kv => kv.2.marketId)).filter (fun s => s != "")

/-- The deduplicated, precedence-filtered list before sorting, with each
entry tagged by the map it came from (`true` = market-level). -/
def dedupPre (items : List DItem) : List (Bool × MatchedEmailEvent) :=
  let maps := buildMaps items
  let ids := storeMarketIds maps.2
  ((maps.1.map (fun kv => kv.2)).filter
      (fun x => !ids.contains x.marketId)).map (fun m => (true, m))
    ++ (maps.2.map (fun kv => kv.2)).map (fun m => (false, m))

/-- The Deduplicator: two-map accumulation, precedence filter, and the
stable sort, keeping the map tag of each surviving entry. -/
def dedupMatches (items : List DItem) : List (Bool × MatchedEmailEvent) :=
  (dedupPre items).mergeSort (fun x y => matchLe x.2 y.2)

/-- `matchEventsForUser` (src/index.ts lines 423-494). -/
def matchEventsForUser (pack : EmailEventPackV1) (rules : List EmailRuleV1)
    (favs : List String) : List MatchedEmailEvent :=
  let maps := buildMaps (matchStream pack rules favs)
  let marketIdsFromStore := storeMarketIds maps.2
  let marketOnly := (maps.1.map (fun kv => kv.2)).filter
    (fun x => !marketIdsFromStore.contains x.marketId)
  let out := marketOnly ++ maps.2.map (fun kv => kv.2)
  out.mergeSort matchLe

/-! ### JSON values and the event-pack validator
(src/validate.ts lines 49-55 and 390-439) -/

/-- A JSON value as delivered by `req.json()`: no `undefined`, no `NaN`;
numbers are modelled as `Int`. -/
inductive JVal where
  | jnull : JVal
  | jbool : Bool → JVal
  | jnum : Int → JVal
  | jstr : String → JVal
  | jarr : List JVal → JVal
  | jobj : List (String × JVal) → JVal
deriving Repr

/-- Property access `o.k` on a JSON object (absent field = `none`). -/
def jGet (fields : List (String × JVal)) (k : String) : Option JVal :=
  fields.lookup k

/-- JS truthiness of a JSON value. -/
def jTruthy : JVal → Bool
  | .jnull => false
  | .jbool b => b
  | .jnum n => n != 0
  | .jstr s => s != ""
  | .jarr _ => true
  | .jobj _ => true

mutual
/-- JS `String(v)` on a JSON value. -/
def jToString : JVal → String
  | .jnull => "null"
  | .jbool b => if b then "true" else "false"
  | .jnum n => toString n
  | .jstr s => s
  | .jarr xs => String.intercalate "," (jArrStrings xs)
  | .jobj _ => "[object Object]"

/-- Element strings of `Array.prototype.toString` (null renders as ""). -/
def jArrStrings : List JVal → List String
  | [] => []
  | .jnull :: rest => "" :: jArrStrings rest
  | v :: rest => jToString v :: jArrStrings rest
end

/-- The characters admitted by `SKU_RE = /^[A-Za-z0-9:]+$/`. -/
def skuCharOk (c : Char) : Bool := c.isAlphanum || c == ':'

/-- `assertSku` (src/validate.ts lines 49-55): `String(value ?? "").trim()`
must be non-empty, at most 256 characters, and match `SKU_RE`; otherwise
the validator throws. -/
def assertSku (value : Option JVal) (name : String) : Except String String :=
  let v := (match value with
    | none => ""
    | some .jnull => ""
    | some j => jToString j) |> jsTrim
  if v == "" || v.length > 256 || !v.data.all skuCharOk then
    .error (name ++ " must be : + alphanumerics")
  else .ok v

/-- `STORE_ID_RE = /^[a-z0-9_-]{1,64}$/`. -/
def storeIdOk (s : String) : Bool :=
  decide (1 ≤ s.length) && decide (s.length ≤ 64)
    && s.data.all (fun c => c.isLower || c.isDigit || c == '_' || c == '-')

/-- `EVENT_TYPES` (src/validate.ts line 18). -/
def EVENT_TYPES : List String :=
  ["OUT_OF_STOCK", "PRICE_DROP", "GLOBAL_NEW", "GLOBAL_RETURN"]

/-- `String(e.eventType || "")` for an event object. -/
def eventTypeOf (fs : List (String × JVal)) : String :=
  match jGet fs "eventType" with
  | none => ""
  | some j => if jTruthy j then jToString j else ""

/-- `typeof e.k === "string" ? e.k.trim() : ""`. -/
def strFieldTrim (fs : List (String × JVal)) (k : String) : String :=
  match jGet fs k with
  | some (.jstr s) => jsTrim s
  | _ => ""

/-- `typeof e.k === "string" ? e.k : ""`. -/
def strField (fs : List (String × JVal)) (k : String) : String :=
  match jGet fs k with
  | some (.jstr s) => s
  | _ => ""

/-- `typeof e.k === "number" && Number.isFinite(e.k) ? e.k : 0`. -/
def numFieldD (fs : List (String × JVal)) (k : String) : Int :=
  match jGet fs k with
  | some (.jnum n) => n
  | _ => 0

/-- `!!e.k` for a field. -/
def boolishField (fs : List (String × JVal)) (k : String) : Bool :=
  match jGet fs k with
  | some j => jTruthy j
  | none => false

/-- One iteration of the event loop of `validateEmailEventPackV1`
(src/validate.ts lines 391-439): `.ok none` models `continue`,
`.error` models the `assertSku` throw escaping the loop. -/
def validateEventEntry (e : JVal) : Except String (Option EmailPackEventV1) :=
  match e with
  | .jobj fs =>
    let eventType := eventTypeOf fs
    if !EVENT_TYPES.contains eventType then .ok none
    else
      let id := strFieldTrim fs "id"
      let marketId := strFieldTrim fs "marketId"
      match assertSku (jGet fs "sku") "events[].sku" with
      | .error msg => .error msg
      | .ok sku =>
        let storeId := strFieldTrim fs "storeId"
        if storeId != "" && !storeIdOk storeId then .ok none
        else
          let base : EmailPackEventV1 :=
            { id := id, marketId := marketId, eventType := eventType,
              sku := sku, storeId := storeId,
              storeLabel := strField fs "storeLabel",
              listingUrl := strField fs "listingUrl",
              marketNew := boolishField fs "marketNew",
              marketReturn := boolishField fs "marketReturn",
              marketOut := boolishField fs "marketOut",
              baseInStockCount := numFieldD fs "baseInStockCount",
              headInStockCount := numFieldD fs "headInStockCount" }
          if eventType != "PRICE_DROP" then
            .ok (some (match jGet fs "newPrice" with
              | some (.jstr s) => { base with newPrice := some s }
              | _ => base))
          else
            let e1 := match jGet fs "oldPrice" with
              | some (.jstr s) => { base with oldPrice := some s }
              | _ => base
            let e2 := match jGet fs "newPrice" with
              | some (.jstr s) => { e1 with newPrice := some s }
              | _ => e1
            let e3 := match jGet fs "dropAbs" with
              | some (.jnum n) => { e2 with dropAbs := some n }
              | _ => e2
            let e4 := match jGet fs "dropPct" with
              | some (.jnum n) => { e3 with dropPct := some (some n) }
              | some .jnull => { e3 with dropPct := some none }
              | _ => e3
            let cheapest := match jGet fs "isCheapestNow" with
              | some (.jbool true) => true
              | _ => false
            .ok (some { e4 with isCheapestNow := cheapest })
  | _ => .ok none

/-- The event loop of `validateEmailEventPackV1`: skipped entries are
dropped, an `assertSku` throw aborts everything. -/
def validateEventsLoop : List JVal → Except String (List EmailPackEventV1)
  | [] => .ok []
  | e :: rest =>
    match validateEventEntry e with
    | .error msg => .error msg
    | .ok none => validateEventsLoop rest
    | .ok (some ev) =>
      match validateEventsLoop rest with
      | .error msg => .error msg
      | .ok evs => .ok (ev :: evs)

/-- `for (const e of eventsIn.slice(0, 50000))`
(src/validate.ts line 391): the events part of the pack validator. -/
def validateEvents (eventsIn : List JVal) : Except String (List EmailPackEventV1) :=
  validateEventsLoop (eventsIn.take 50000)

/-! ### Dot-stuffing (src/smtp.ts lines 35-43)
Strings are modelled as character lists here. -/

/-- `text.replace(/\r\n/g, '\n')`. -/
def replaceCRLF : List Char → List Char
  | [] => []
  | '\r' :: '\n' :: rest => '\n' :: replaceCRLF rest
  | c :: rest => c :: replaceCRLF rest

/-- `text.replace(/\r/g, '\n')`. -/
def replaceCR : List Char → List Char :=
  List.map (fun c => if c = '\r' then '\n' else c)

/-- `text.split('\n')`. -/
def splitLinesOn : List Char → List (List Char)
  | [] => [[]]
  | c :: rest =>
    if c = '\n' then [] :: splitLinesOn rest
    else match splitLinesOn rest with
      | [] => [[c]]
      | l :: ls => (c :: l) :: ls

/-- `line.startsWith('.') ? '.' + line : line`. -/
def stuffLine (l : List Char) : List Char :=
  if l.head? = some '.' then '.' :: l else l

/-- The CRLF separator. -/
def crlf : List Char := ['\r', '\n']

/-- `lines.join('\r\n')`. -/
def joinLines : List (List Char) → List Char
  | [] => []
  | [l] => l
  | l :: ls => l ++ crlf ++ joinLines ls

/-- `dotStuff` (src/smtp.ts lines 35-43). -/
def dotStuff (text : List Char) : List Char :=
  joinLines ((splitLinesOn (replaceCR (replaceCRLF text))).map stuffLine)

/-! ### The SMTP client (src/smtp.ts) -/

/-- A complete SMTP server reply: final status code and all reply lines. -/
structure SmtpReply where
  code : Nat
  lines : List String := []
deriving Repr, DecidableEq

/-- Which part of `sendMailSmtp` issued a command: the greeting/STARTTLS
phase, the `smtpAuth` helper, or the mail transaction. -/
inductive SmtpPhase where
  | hello : SmtpPhase
  | auth : SmtpPhase
  | mail : SmtpPhase
deriving DecidableEq, Repr

/-- A line written to the server, tagged with the phase that wrote it and
whether the connection was encrypted at that moment. -/
structure SentCmd where
  phase : SmtpPhase
  encrypted : Bool
  line : String
deriving Repr, DecidableEq

/-- Client connection state: the remaining server script, the transcript
of written commands, and whether the transport is encrypted. -/
structure SmtpConn where
  script : List SmtpReply
  sent : List SentCmd
  encrypted : Bool
deriving Repr, DecidableEq

/-- Outcome of a client step, always carrying the connection state so the
transcript survives failures. -/
inductive SmtpStep (α : Type) where
  | ok : α → SmtpConn → SmtpStep α
  | fail : String → SmtpConn → SmtpStep α
deriving Repr

/-- `readResponse`: consume the next scripted reply. -/
def recvReply (st : SmtpConn) : SmtpStep SmtpReply :=
  match st.script with
  | [] => .fail "SMTP connection closed" st
  | r :: rest => .ok r { st with script := rest }

/-- `cmd`: write a line, then read the reply. -/
def sendCmd (ph : SmtpPhase) (line : String) (st : SmtpConn) : SmtpStep SmtpReply :=
  recvReply { st with sent := st.sent ++ [⟨ph, st.encrypted, line⟩] }

/-- JS `toUpperCase`, character-wise. -/
def jsToUpper (s : String) : String := String.mk (s.data.map Char.toUpper)

/-- Model of `String.prototype.startsWith`. -/
def strStartsW (s p : String) : Bool := p.data.isPrefixOf s.data

/-- `parseEhloCaps` on one line: `^\d{3}[ -](.+)$`, capture trimmed and
upper-cased. -/
def parseCapLine (l : String) : Option String :=
  match l.data with
  | d1 :: d2 :: d3 :: sep :: rest =>
    if d1.isDigit && d2.isDigit && d3.isDigit
        && (sep == ' ' || sep == '-') && !rest.isEmpty then
      some (jsToUpper (jsTrim (String.mk rest)))
    else none
  | _ => none

/-- `parseEhloCaps` (src/smtp.ts lines 121-130). -/
def parseEhloCaps (lines : List String) : List String :=
  lines.filterMap parseCapLine

def hasAuthPlain (caps : List String) : Bool :=
  caps.any (fun c => strStartsW c "AUTH " && strIncludes c " PLAIN")

def hasAuthLogin (caps : List String) : Bool :=
  caps.any (fun c => strStartsW c "AUTH " && strIncludes c " LOGIN")

def hasStartTls (caps : List String) : Bool := caps.contains "STARTTLS"

/-- UTF-8 bytes of a character (model of `TextEncoder`). -/
def utf8Bytes (c : Char) : List Nat :=
  let n := c.toNat
  if n < 0x80 then [n]
  else if n < 0x800 then
    [0xC0 + n / 64, 0x80 + n % 64]
  else if n < 0x10000 then
    [0xE0 + n / 4096, 0x80 + (n / 64) % 64, 0x80 + n % 64]
  else
    [0xF0 + n / 262144, 0x80 + (n / 4096) % 64, 0x80 + (n / 64) % 64,
      0x80 + n % 64]

/-- The standard base64 alphabet. -/
def b64Alphabet : List Char :=
  "ABCDEFGHIJKLMNOPQRSTUVWXYZabcdefghijklmnopqrstuvwxyz0123456789+/".data

/-- `btoa` over a byte list. -/
def b64EncodeBytes : List Nat → List Char
  | [] => []
  | [b1] =>
    [b64Alphabet.getD (b1 / 4) ' ', b64Alphabet.getD (b1 % 4 * 16) ' ', '=', '=']
  | [b1, b2] =>
    [b64Alphabet.getD (b1 / 4) ' ',
      b64Alphabet.getD (b1 % 4 * 16 + b2 / 16) ' ',
      b64Alphabet.getD (b2 % 16 * 4) ' ', '=']
  | b1 :: b2 :: b3 :: rest =>
    b64Alphabet.getD (b1 / 4) ' '
      :: b64Alphabet.getD (b1 % 4 * 16 + b2 / 16) ' '
      :: b64Alphabet.getD (b2 % 16 * 4 + b3 / 64) ' '
      :: b64Alphabet.getD (b3 % 64) ' '
      :: b64EncodeBytes rest

/-- `b64StdText` (src/smtp.ts lines 20-28). -/
def b64StdText (s : String) : String :=
  String.mk (b64EncodeBytes (s.data.flatMap utf8Bytes))

def pickEhloName : String := "spirit-tracker"

def FROM_EMAIL : String := "spirit@codexwilkes.com"

def FROM_HEADER : String := "Spirit Tracker <spirit@codexwilkes.com>"

/-- `smtpAuth` (src/smtp.ts lines 146-172): AUTH PLAIN, else AUTH LOGIN,
else fail. Every command it writes is tagged `.auth`. -/
def smtpAuth (caps : List String) (username password : String)
    (st : SmtpConn) : SmtpStep Unit :=
  if hasAuthPlain caps then
    match sendCmd .auth ("AUTH PLAIN " ++ b64StdText
        (String.mk ('\x00' :: username.data ++ '\x00' :: password.data))) st with
    | .fail e st1 => .fail e st1
    | .ok r st1 =>
      if r.code ≠ 235 then
        .fail ("SMTP auth failed (" ++ toString r.code ++ ")") st1
      else .ok () st1
  else if hasAuthLogin caps then
    match sendCmd .auth "AUTH LOGIN" st with
    | .fail e st1 => .fail e st1
    | .ok r1 st1 =>
      if r1.code ≠ 334 then
        .fail ("SMTP auth failed (" ++ toString r1.code ++ ")") st1
      else match sendCmd .auth (b64StdText username) st1 with
      | .fail e st2 => .fail e st2
      | .ok r2 st2 =>
        if r2.code ≠ 334 then
          .fail ("SMTP auth failed (" ++ toString r2.code ++ ")") st2
        else match sendCmd .auth (b64StdText password) st2 with
        | .fail e st3 => .fail e st3
        | .ok r3 st3 =>
          if r3.code ≠ 235 then
            .fail ("SMTP auth failed (" ++ toString r3.code ++ ")") st3
          else .ok () st3
  else .fail "SMTP server does not support AUTH PLAIN/LOGIN" st

/-- The greeting phase of `sendMailSmtp` (src/smtp.ts lines 203-220):
banner, EHLO, and, when the transport is not already encrypted, a
mandatory STARTTLS upgrade followed by a second EHLO. On success the
connection is always encrypted. -/
def smtpHello (st : SmtpConn) : SmtpStep (List String) :=
  match recvReply st with
  | .fail e st1 => .fail e st1
  | .ok r st1 =>
    if r.code ≠ 220 then
      .fail ("SMTP banner failed (" ++ toString r.code ++ ")") st1
    else match sendCmd .hello ("EHLO " ++ pickEhloName) st1 with
    | .fail e st2 => .fail e st2
    | .ok r2 st2 =>
      if r2.code ≠ 250 then
        .fail ("SMTP EHLO failed (" ++ toString r2.code ++ ")") st2
      else
        let caps := parseEhloCaps r2.lines
        if st2.encrypted then .ok caps st2
        else if !hasStartTls caps then
          .fail "SMTP server does not support STARTTLS" st2
        else match sendCmd .hello "STARTTLS" st2 with
        | .fail e st3 => .fail e st3
        | .ok r3 st3 =>
          if r3.code ≠ 220 then
            .fail ("SMTP STARTTLS failed (" ++ toString r3.code ++ ")") st3
          else
            match sendCmd .hello ("EHLO " ++ pickEhloName)
                { st3 with encrypted := true } with
            | .fail e st5 => .fail e st5
            | .ok r5 st5 =>
              if r5.code ≠ 250 then
                .fail ("SMTP EHLO (post-TLS) failed (" ++ toString r5.code ++ ")") st5
              else .ok (parseEhloCaps r5.lines) st5

/-- `dotStuff` lifted back to `String`. -/
def dotStuffStr (s : String) : String := String.mk (dotStuff s.data)

/-- The DATA payload (src/smtp.ts lines 232-246); `msgId` and `dateStr`
stand for the random Message-ID and the current date. -/
def buildDataPayload (toAddr subject text msgId dateStr : String) : String :=
  "From: " ++ FROM_HEADER ++ "\r\n"
    ++ "To: " ++ toAddr ++ "\r\n"
    ++ "Subject: "
      ++ jsTrim (String.mk (subject.data.map
          (fun c => if c = '\r' || c = '\n' then ' ' else c))) ++ "\r\n"
    ++ "Date: " ++ dateStr ++ "\r\n"
    ++ "Message-ID: " ++ msgId ++ "\r\n"
    ++ "MIME-Version: 1.0\r\n"
    ++ "Content-Type: text/plain; charset=utf-8\r\n"
    ++ "Content-Transfer-Encoding: 8bit\r\n"
    ++ "\r\n"
    ++ dotStuffStr text ++ "\r\n"
    ++ "\r\n.\r\n"

/-- The mail transaction of `sendMailSmtp` (src/smtp.ts lines 224-252):
MAIL FROM, RCPT TO, DATA, payload, QUIT (errors on QUIT are swallowed). -/
def smtpMailPhase (toAddr data : String) (st : SmtpConn) : SmtpStep Unit :=
  match sendCmd .mail ("MAIL FROM:<" ++ FROM_EMAIL ++ ">") st with
  | .fail e st1 => .fail e st1
  | .ok r1 st1 =>
    if r1.code ≠ 250 then
      .fail ("SMTP MAIL FROM failed (" ++ toString r1.code ++ ")") st1
    else match sendCmd .mail ("RCPT TO:<" ++ toAddr ++ ">") st1 with
    | .fail e st2 => .fail e st2
    | .ok r2 st2 =>
      if r2.code ≠ 250 ∧ r2.code ≠ 251 then
        .fail ("SMTP RCPT TO failed (" ++ toString r2.code ++ ")") st2
      else match sendCmd .mail "DATA" st2 with
      | .fail e st3 => .fail e st3
      | .ok r3 st3 =>
        if r3.code ≠ 354 then
          .fail ("SMTP DATA failed (" ++ toString r3.code ++ ")") st3
        else
          match recvReply { st3 with
              sent := st3.sent ++ [⟨.mail, st3.encrypted, data⟩] } with
          | .fail e st4 => .fail e st4
          | .ok r4 st4 =>
            if r4.code ≠ 250 then
              .fail ("SMTP send failed (" ++ toString r4.code ++ ")") st4
            else match sendCmd .mail "QUIT" st4 with
            | .fail _ st5 => .ok () st5
            | .ok _ st5 => .ok () st5

/-- `sendMailSmtp` (src/smtp.ts lines 175-256), with the environment and
mail fields as parameters and the server modelled as a reply script.
Returns the final connection (with the transcript) and the result. -/
def sendMailSmtp (port : Nat) (host username password toAddr subject text
    msgId dateStr : String) (script : List SmtpReply) :
    SmtpConn × Except String Unit :=
  let st0 : SmtpConn := { script := script, sent := [], encrypted := port == 465 }
  if jsTrim host == "" then (st0, .error "MAIL_HOST not configured")
  else if port == 0 then (st0, .error "MAIL_PORT not configured")
  else if jsTrim username == "" || jsTrim password == "" then
    (st0, .error "MAIL_USERNAME/MAIL_PASSWORD not configured")
  else
    let toT := jsTrim toAddr
    if toT == "" || !strIncludes toT "@" then (st0, .error "Invalid recipient")
    else
      match smtpHello st0 with
      | .fail e st => (st, .error e)
      | .ok caps st1 =>
        match smtpAuth caps (jsTrim username) (jsTrim password) st1 with
        | .fail e st => (st, .error e)
        | .ok _ st2 =>
          match smtpMailPhase toT
              (buildDataPayload toT subject text msgId dateStr) st2 with
          | .fail e st => (st, .error e)
          | .ok _ st3 => (st3, .ok ())

/-- The connection state carried by a step outcome, success or failure. -/
def stepConn {α : Type} : SmtpStep α → SmtpConn
  | .ok _ st => st
  | .fail _ st => st

/-- `st'` extends `st` by commands of phase `p` only, written at `st`'s
encryption level, without changing the encryption state. -/
def extendsPhase (p : SmtpPhase) (st st' : SmtpConn) : Prop :=
  st'.encrypted = st.encrypted
    ∧ ∀ c ∈ st'.sent, c ∈ st.sent ∨ (c.phase = p ∧ c.encrypted = st.encrypted)

/-- `st'` extends `st` by greeting-phase commands only (the encryption
state may change, as STARTTLS upgrades it). -/
def extendsHello (st st' : SmtpConn) : Prop :=
  ∀ c ∈ st'.sent, c ∈ st.sent ∨ c.phase = .hello

/-! ### The delivery orchestrator (src/index.ts lines 581-624) -/

/-- One delivery job assembled by `handleEmailPack`. -/
structure EmailJob where
  userId : String
  toAddr : String
  shortlistName : String
  eventCount : Nat
  events : List MatchedEmailEvent
deriving Repr, DecidableEq

/-- Counters and failure list accumulated by the send loop. -/
structure DeliveryReport where
  attempted : Nat
  sent : Nat
  failures : List (String × String)
deriving Repr, DecidableEq

/-- The send loop (src/index.ts lines 586-618): each job is paired with
the outcome of its `sendMailSmtp` call; a failure is recorded as
`{to, error}` and the loop continues. -/
def runDeliveries : List (EmailJob × Except String Unit) → DeliveryReport
  | [] => ⟨0, 0, []⟩
  | jr :: rest =>
    let r := runDeliveries rest
    match jr.2 with
    | .ok _ => ⟨r.attempted + 1, r.sent + 1, r.failures⟩
    | .error e => ⟨r.attempted + 1, r.sent, (jr.1.toAddr, e) :: r.failures⟩

/-- The response fields of `handleEmailPack` (src/index.ts lines 620-624). -/
structure EmailPackResponse where
  scannedAccounts : Nat
  matchedAccounts : Nat
  attempted : Nat
  sent : Nat
  failed : Nat
  failures : List (String × String)
deriving Repr, DecidableEq

/-- Assembly of the final report. -/
def emailPackResponse (scannedAccounts matchedAccounts : Nat)
    (jobs : List (EmailJob × Except String Unit)) : EmailPackResponse :=
  let o := runDeliveries jobs
  { scannedAccounts := scannedAccounts, matchedAccounts := matchedAccounts,
    attempted := o.attempted, sent := o.sent, failed := o.failures.length,
    failures := o.failures.take 25 }

/-! ### Concrete fixtures used by witnesses and counterexamples -/

/-- An enabled market-wide GLOBAL_NEW rule with no filters. -/
def ruleGN : EmailRuleV1 :=
  { id := "r1", enabled := true, scope := "all", eventType := "GLOBAL_NEW" }

/-- An enabled OUT_OF_STOCK rule with no filters (store-level by default). -/
def ruleOOS : EmailRuleV1 :=
  { id := "r2", enabled := true, scope := "all", eventType := "OUT_OF_STOCK" }

/-- A PRICE_DROP rule that explicitly sets `filters.acrossMarket = true`. -/
def rulePD : EmailRuleV1 :=
  { id := "r3", enabled := true, scope := "all", eventType := "PRICE_DROP",
    filters := some { acrossMarket := some true } }

/-- An enabled shortlist-scoped GLOBAL_NEW rule. -/
def ruleSL : EmailRuleV1 :=
  { id := "r4", enabled := true, scope := "shortlist", eventType := "GLOBAL_NEW" }

/-- A GLOBAL_NEW event with an empty `marketId`. -/
def evGN : EmailPackEventV1 :=
  { id := "e1", marketId := "", eventType := "GLOBAL_NEW", sku := "X",
    storeId := "s1", storeLabel := "", listingUrl := "",
    marketNew := true, marketReturn := false, marketOut := false }

/-- An OUT_OF_STOCK event with an empty `marketId`. -/
def evOOS : EmailPackEventV1 :=
  { id := "e2", marketId := "", eventType := "OUT_OF_STOCK", sku := "X",
    storeId := "s2", storeLabel := "", listingUrl := "",
    marketNew := false, marketReturn := false, marketOut := true }

/-- A GLOBAL_NEW event carrying the non-empty market id `m1`. -/
def evGN1 : EmailPackEventV1 :=
  { id := "e3", marketId := "m1", eventType := "GLOBAL_NEW", sku := "X",
    storeId := "s1", storeLabel := "", listingUrl := "",
    marketNew := true, marketReturn := false, marketOut := false }

/-- An OUT_OF_STOCK event carrying the non-empty market id `m1`. -/
def evOOS1 : EmailPackEventV1 :=
  { id := "e4", marketId := "m1", eventType := "OUT_OF_STOCK", sku := "X",
    storeId := "s2", storeLabel := "", listingUrl := "",
    marketNew := false, marketReturn := false, marketOut := true }

/-- A pack with one SKU and the two empty-`marketId` events. -/
def packX : EmailEventPackV1 :=
  { skus := [("X", { sku := "X", name := "Widget", img := "", members := [] })],
    events := [evGN, evOOS] }

/-- A pack with one SKU and the two `m1` events. -/
def packY : EmailEventPackV1 :=
  { skus := [("X", { sku := "X", name := "Widget", img := "", members := [] })],
    events := [evGN1, evOOS1] }

/-- A well-formed event row (JSON). -/
def evGoodJ : JVal :=
  .jobj [("eventType", .jstr "GLOBAL_NEW"), ("sku", .jstr "X"),
    ("id", .jstr "e1")]

/-- An event row whose `sku` fails `SKU_RE` (contains a space and `!`). -/
def evBadSkuJ : JVal :=
  .jobj [("eventType", .jstr "GLOBAL_NEW"), ("sku", .jstr "bad sku!")]

/-- An event row with an unrecognized `eventType`. -/
def evTypoJ : JVal := .jobj [("eventType", .jstr "SOMETHING_ELSE")]

/-- A matched event with empty `storeId` (sort-order witness fixture). -/
def mEmptyStore : MatchedEmailEvent :=
  { eventId := "a", marketId := "", eventType := "T", sku := "S",
    skuName := "N", skuImg := "", storeId := "", storeLabel := "",
    listingUrl := "", marketNew := false, marketReturn := false,
    marketOut := false, matchedRuleIds := [] }

/-- The same matched event with a non-empty `storeId`. -/
def mNonEmptyStore : MatchedEmailEvent :=
  { mEmptyStore with eventId := "b", storeId := "z" }

/-- The map-tag of an already-deduplicated entry, turned back into a
Deduplicator input item. -/
def retag (tm : Bool × MatchedEmailEvent) : DItem :=
  ⟨tm.1, tm.2.matchedRuleIds.headD "", tm.2⟩

/-! ### Comparator lemmas -/

theorem strCmp_refl (a : String) : strCmp a a = .eq :=
  (strCmp_eq_iff a a).mpr rfl

theorem strCmp_antisymm {a b : String}
    (h1 : strCmp a b ≠ .gt) (h2 : strCmp b a ≠ .gt) : a = b := by
  rw [strCmp_swap] at h2
  cases h : strCmp a b with
  | lt => rw [h] at h2; simp [Ordering.swap] at h2
  | eq => exact (strCmp_eq_iff a b).mp h
  | gt => exact absurd h h1

theorem strCmp_lt_of_lt_of_not_gt {a b c : String}
    (h1 : strCmp a b = .lt) (h2 : strCmp b c ≠ .gt) : strCmp a c = .lt := by
  have hac : strCmp a c ≠ .gt :=
    strCmp_trans_not_gt (by simp [h1]) h2
  cases h : strCmp a c with
  | lt => rfl
  | eq =>
    exfalso
    have : a = c := (strCmp_eq_iff a c).mp h
    subst this
    rw [strCmp_swap, h1] at h2
    simp [Ordering.swap] at h2
  | gt => exact absurd h hac

theorem strCmp_lt_of_not_gt_of_lt {a b c : String}
    (h1 : strCmp a b ≠ .gt) (h2 : strCmp b c = .lt) : strCmp a c = .lt := by
  have hac : strCmp a c ≠ .gt :=
    strCmp_trans_not_gt h1 (by simp [h2])
  cases h : strCmp a c with
  | lt => rfl
  | eq =>
    exfalso
    have : a = c := (strCmp_eq_iff a c).mp h
    subst this
    rw [strCmp_swap, h2] at h1
    simp [Ordering.swap] at h1
  | gt => exact absurd h hac

theorem matchLe_eq_true_iff {a b : MatchedEmailEvent} :
    matchLe a b = true ↔ matchCmp a b ≠ .gt := by
  unfold matchLe
  cases matchCmp a b <;> decide

/-- The matcher's comparator, spelt out: ascending by `eventType`, then by
SKU display name, then by `storeId`. -/
theorem matchLe_iff {a b : MatchedEmailEvent} :
    matchLe a b = true ↔
      (strCmp a.eventType b.eventType = .lt
        ∨ (a.eventType = b.eventType
            ∧ (strCmp a.skuName b.skuName = .lt
                ∨ (a.skuName = b.skuName ∧ strCmp a.storeId b.storeId ≠ .gt)))) := by
  rw [matchLe_eq_true_iff]
  unfold matchCmp
  cases h1 : strCmp a.eventType b.eventType with
  | lt => simp
  | gt =>
    have : a.eventType ≠ b.eventType := by
      intro h; rw [h, strCmp_refl] at h1; cases h1
    simp [h1, this]
  | eq =>
    have he1 : a.eventType = b.eventType := (strCmp_eq_iff _ _).mp h1
    cases h2 : strCmp a.skuName b.skuName with
    | lt => simp [he1]
    | gt =>
      have : a.skuName ≠ b.skuName := by
        intro h; rw [h, strCmp_refl] at h2; cases h2
      simp [he1, h2, this]
    | eq =>
      have he2 : a.skuName = b.skuName := (strCmp_eq_iff _ _).mp h2
      simp [he1, he2, h2]

theorem matchLe_trans {a b c : MatchedEmailEvent}
    (h1 : matchLe a b = true) (h2 : matchLe b c = true) : matchLe a c = true := by
  rw [matchLe_iff] at h1 h2 ⊢
  rcases h1 with h1 | ⟨he1, h1⟩
  · rcases h2 with h2 | ⟨he2, _⟩
    · exact Or.inl (strCmp_lt_of_lt_of_not_gt h1 (by simp [h2]))
    · exact Or.inl (he2 ▸ h1)
  · rcases h2 with h2 | ⟨he2, h2⟩
    · exact Or.inl (he1 ▸ h2)
    · refine Or.inr ⟨he1.trans he2, ?_⟩
      rcases h1 with h1 | ⟨hn1, h1⟩
      · rcases h2 with h2 | ⟨hn2, _⟩
        · exact Or.inl (strCmp_lt_of_lt_of_not_gt h1 (by simp [h2]))
        · exact Or.inl (hn2 ▸ h1)
      · rcases h2 with h2 | ⟨hn2, h2⟩
        · exact Or.inl (hn1 ▸ h2)
        · exact Or.inr ⟨hn1.trans hn2, strCmp_trans_not_gt h1 h2⟩

theorem matchLe_total (a b : MatchedEmailEvent) :
    matchLe a b = true ∨ matchLe b a = true := by
  rw [matchLe_eq_true_iff, matchLe_eq_true_iff]
  unfold matchCmp
  rcases strCmp_total a.eventType b.eventType with h | h
  · cases h1 : strCmp a.eventType b.eventType with
    | lt => exact Or.inl (by simp)
    | gt => exact absurd h1 h
    | eq =>
      have he1 : a.eventType = b.eventType := (strCmp_eq_iff _ _).mp h1
      have h1' : strCmp b.eventType a.eventType = .eq := he1 ▸ strCmp_refl _
      rcases strCmp_total a.skuName b.skuName with h2 | h2
      · cases h2' : strCmp a.skuName b.skuName with
        | lt => exact Or.inl (by simp [h1])
        | gt => exact absurd h2' h2
        | eq =>
          have he2 : a.skuName = b.skuName := (strCmp_eq_iff _ _).mp h2'
          have h2'' : strCmp b.skuName a.skuName = .eq := he2 ▸ strCmp_refl _
          rcases strCmp_total a.storeId b.storeId with h3 | h3
          · exact Or.inl (by simp [h1, h2', h3])
          · exact Or.inr (by simp [h1', h2'', h3])
      · cases h2' : strCmp b.skuName a.skuName with
        | lt => exact Or.inr (by simp [h1'])
        | gt => exact absurd h2' h2
        | eq =>
          have he2 : b.skuName = a.skuName := (strCmp_eq_iff _ _).mp h2'
          have h2'' : strCmp a.skuName b.skuName = .eq := he2 ▸ strCmp_refl _
          rcases strCmp_total a.storeId b.storeId with h3 | h3
          · exact Or.inl (by simp [h1, h2'', h3])
          · exact Or.inr (by simp [h1', h2', h3])
  · cases h1 : strCmp b.eventType a.eventType with
    | lt => exact Or.inr (by simp)
    | gt => exact absurd h1 h
    | eq =>
      have he1 : b.eventType = a.eventType := (strCmp_eq_iff _ _).mp h1
      have h1' : strCmp a.eventType b.eventType = .eq := he1 ▸ strCmp_refl _
      rcases strCmp_total a.skuName b.skuName with h2 | h2
      · cases h2' : strCmp a.skuName b.skuName with
        | lt => exact Or.inl (by simp [h1'])
        | gt => exact absurd h2' h2
        | eq =>
          have he2 : a.skuName = b.skuName := (strCmp_eq_iff _ _).mp h2'
          have h2'' : strCmp b.skuName a.skuName = .eq := he2 ▸ strCmp_refl _
          rcases strCmp_total a.storeId b.storeId with h3 | h3
          · exact Or.inl (by simp [h1', h2', h3])
          · exact Or.inr (by simp [h1, h2'', h3])
      · cases h2' : strCmp b.skuName a.skuName with
        | lt => exact Or.inr (by simp [h1])
        | gt => exact absurd h2' h2
        | eq =>
          have he2 : b.skuName = a.skuName := (strCmp_eq_iff _ _).mp h2'
          have h2'' : strCmp a.skuName b.skuName = .eq := he2 ▸ strCmp_refl _
          rcases strCmp_total a.storeId b.storeId with h3 | h3
          · exact Or.inl (by simp [h1', h2'', h3])
          · exact Or.inr (by simp [h1, h2', h3])

theorem matchLe_total_bool (a b : MatchedEmailEvent) :
    matchLe a b || matchLe b a := by
  rcases matchLe_total a b with h | h <;> simp [h]

theorem matchLe_trans_bool (a b c : MatchedEmailEvent) :
    matchLe a b → matchLe b c → matchLe a c := by
  intro h1 h2
  exact matchLe_trans h1 h2

/-! ### Membership in the matcher output -/

theorem storeMarketIds_mem_iff {byId : List (String × MatchedEmailEvent)}
    {s : String} :
    s ∈ storeMarketIds byId ↔ s ≠ "" ∧ ∃ kv ∈ byId, kv.2.marketId = s := by
  unfold storeMarketIds
  simp only [List.mem_filter, List.mem_map]
  constructor
  · rintro ⟨⟨kv, hkv, rfl⟩, hne⟩
    exact ⟨by simpa using hne, kv, hkv, rfl⟩
  · rintro ⟨hne, kv, hkv, rfl⟩
    exact ⟨⟨kv, hkv, rfl⟩, by simpa using hne⟩

/-- Membership in the final match list: exactly the store-level values,
together with the market-level values that are not suppressed — and a
market-level value is suppressed only when its `marketId` is non-empty
and shared with some store-level value. -/
theorem mem_matchEventsForUser_iff {pack : EmailEventPackV1}
    {rules : List EmailRuleV1} {favs : List String} {x : MatchedEmailEvent} :
    x ∈ matchEventsForUser pack rules favs ↔
      ((∃ kv ∈ (buildMaps (matchStream pack rules favs)).2, kv.2 = x)
        ∨ ((∃ kv ∈ (buildMaps (matchStream pack rules favs)).1, kv.2 = x)
            ∧ (x.marketId = ""
                ∨ ∀ kv ∈ (buildMaps (matchStream pack rules favs)).2,
                    kv.2.marketId ≠ x.marketId))) := by
  unfold matchEventsForUser
  simp only [List.mem_mergeSort, List.mem_append, List.mem_filter, List.mem_map]
  constructor
  · rintro (⟨⟨kv, hkv, rfl⟩, hsup⟩ | ⟨kv, hkv, rfl⟩)
    · refine Or.inr ⟨⟨kv, hkv, rfl⟩, ?_⟩
      by_cases he : kv.2.marketId = ""
      · exact Or.inl he
      · refine Or.inr fun kv' hkv' heq => ?_
        have : kv.2.marketId ∈ storeMarketIds (buildMaps (matchStream pack rules favs)).2 :=
          storeMarketIds_mem_iff.mpr ⟨he, kv', hkv', heq⟩
        simp [this] at hsup
    · exact Or.inl ⟨kv, hkv, rfl⟩
  · rintro (⟨kv, hkv, rfl⟩ | ⟨⟨kv, hkv, rfl⟩, hok⟩)
    · exact Or.inr ⟨kv, hkv, rfl⟩
    · refine Or.inl ⟨⟨kv, hkv, rfl⟩, ?_⟩
      have : kv.2.marketId ∉ storeMarketIds (buildMaps (matchStream pack rules favs)).2 := by
        intro hmem
        rcases storeMarketIds_mem_iff.mp hmem with ⟨hne, kv', hkv', heq⟩
        rcases hok with h | h
        · exact hne h
        · exact h kv' hkv' heq
      simp [this]

/-! ### Claim C1: precedence of store-level over market-level matches -/

/-- C1 (counterexample): with one market-level match and one store-level
match that have the same (empty) `marketId`, the market-level entry is
not dropped: it appears in the final output (event `e1`), so "every
market-level entry whose `marketId` equals the `marketId` of some
store-level entry is dropped" fails as stated. -/
theorem precedence_empty_marketId_not_dropped :
    (buildMaps (matchStream packX [ruleGN, ruleOOS] [])).1.map
        (fun kv => (kv.2.eventId, kv.2.marketId)) = [("e1", "")]
    ∧ (buildMaps (matchStream packX [ruleGN, ruleOOS] [])).2.map
        (fun kv => (kv.2.eventId, kv.2.marketId)) = [("e2", "")]
    ∧ (matchEventsForUser packX [ruleGN, ruleOOS] []).map
        (fun m => m.eventId) = ["e1", "e2"] :=
  ⟨rfl, rfl, rfl⟩

/-- C1 (amended): the final output consists of exactly the store-level
entries together with the market-level entries whose `marketId` is not
both non-empty and shared with a store-level entry; in particular one
store-specific match and one market-wide match for the same non-empty
`marketId` leave only the store-specific entry. -/
theorem matcher_precedence_characterization :
    (∀ (pack : EmailEventPackV1) (rules : List EmailRuleV1)
        (favs : List String) (x : MatchedEmailEvent),
      x ∈ matchEventsForUser pack rules favs ↔
        ((∃ kv ∈ (buildMaps (matchStream pack rules favs)).2, kv.2 = x)
          ∨ ((∃ kv ∈ (buildMaps (matchStream pack rules favs)).1, kv.2 = x)
              ∧ (x.marketId = ""
                  ∨ ∀ kv ∈ (buildMaps (matchStream pack rules favs)).2,
                      kv.2.marketId ≠ x.marketId))))
    ∧ (matchEventsForUser packY [ruleGN, ruleOOS] []).map
        (fun m => (m.eventId, m.marketId)) = [("e4", "m1")] := by
  refine ⟨fun pack rules favs x => mem_matchEventsForUser_iff, ?_⟩
  rfl

/-! ### Claim C9: empty-marketId market-level entries are never suppressed -/

/-- C9: only store-level matches with non-empty `marketId` populate the
suppression set, and a market-level entry is dropped only by its own
`marketId`; hence market-level entries with empty `marketId` always
survive into the final output. -/
theorem empty_marketId_market_entry_survives
    (pack : EmailEventPackV1) (rules : List EmailRuleV1) (favs : List String)
    (v : MatchedEmailEvent)
    (hv : ∃ kv ∈ (buildMaps (matchStream pack rules favs)).1, kv.2 = v)
    (hempty : v.marketId = "") :
    v ∈ matchEventsForUser pack rules favs :=
  mem_matchEventsForUser_iff.mpr (Or.inr ⟨hv, Or.inl hempty⟩)

/-- Witness for C9 at the concrete `packX` scenario: the empty-`marketId`
market-level entry for event `e1` survives even though a store-level
match for the same SKU and an empty `marketId` exists. -/
theorem empty_marketId_market_entry_survives_witness :
    mkMatched packX ruleGN evGN ∈ matchEventsForUser packX [ruleGN, ruleOOS] [] := by
  apply empty_marketId_market_entry_survives packX [ruleGN, ruleOOS] []
  · exact ⟨("GLOBAL_NEW|X", mkMatched packX ruleGN evGN), by decide, rfl⟩
  · rfl

/-! ### Claim C2: acrossMarket semantics -/

theorem ruleMatchesEvent_across_flags {pack : EmailEventPackV1}
    {rule : EmailRuleV1} {ev : EmailPackEventV1} {favs : List String}
    (hm : ruleMatchesEvent pack rule ev favs = true) :
    (ruleAcrossMarket rule &&
      ((rule.eventType == "GLOBAL_NEW" && !ev.marketNew)
        || (rule.eventType == "GLOBAL_RETURN" && !ev.marketReturn)
        || (rule.eventType == "OUT_OF_STOCK" && !ev.marketOut))) = false := by
  by_contra hq
  rw [Bool.not_eq_false] at hq
  have hf : ruleMatchesEvent pack rule ev favs = false := by
    unfold ruleMatchesEvent
    dsimp only
    split
    · rfl
    · split
      · rfl
      · split
        · rfl
        · split
          · rfl
          · split
            · rfl
            · split
              · rfl
              · simp [hq]
  rw [hf] at hm
  cases hm

/-- C2 (counterexample): a PRICE_DROP rule with `filters.acrossMarket`
explicitly `true` still gets effective `acrossMarket = false`; the
matcher forces `false` for PRICE_DROP before reading the filter. -/
theorem acrossMarket_priceDrop_overrides_filter :
    rulePD.eventType = "PRICE_DROP"
    ∧ (rulePD.filters.getD {}).acrossMarket = some true
    ∧ ruleAcrossMarket rulePD = false :=
  ⟨rfl, rfl, rfl⟩

/-- C2 (amended): effective `acrossMarket` is always `false` for
PRICE_DROP rules regardless of `filters.acrossMarket`; for other event
types it equals `filters.acrossMarket` when set, else defaults to `true`
exactly for GLOBAL_NEW; when it is `true` the rule only matches events
whose corresponding market flag is set; and PRICE_DROP matching never
consults the market flags. -/
theorem acrossMarket_semantics :
    (∀ rule : EmailRuleV1, rule.eventType = "PRICE_DROP" →
      ruleAcrossMarket rule = false)
    ∧ (∀ (rule : EmailRuleV1) (b : Bool), rule.eventType ≠ "PRICE_DROP" →
        (rule.filters.getD {}).acrossMarket = some b → ruleAcrossMarket rule = b)
    ∧ (∀ rule : EmailRuleV1, rule.eventType ≠ "PRICE_DROP" →
        (rule.filters.getD {}).acrossMarket = none →
        (ruleAcrossMarket rule = true ↔ rule.eventType = "GLOBAL_NEW"))
    ∧ (∀ (pack : EmailEventPackV1) (rule : EmailRuleV1) (ev : EmailPackEventV1)
        (favs : List String),
        ruleAcrossMarket rule = true →
        ruleMatchesEvent pack rule ev favs = true →
        (rule.eventType = "GLOBAL_NEW" → ev.marketNew = true)
        ∧ (rule.eventType = "GLOBAL_RETURN" → ev.marketReturn = true)
        ∧ (rule.eventType = "OUT_OF_STOCK" → ev.marketOut = true))
    ∧ (∀ (pack : EmailEventPackV1) (rule : EmailRuleV1) (ev : EmailPackEventV1)
        (favs : List String) (b1 b2 b3 : Bool),
        rule.eventType = "PRICE_DROP" →
        ruleMatchesEvent pack rule
          { ev with marketNew := b1, marketReturn := b2, marketOut := b3 } favs
          = ruleMatchesEvent pack rule ev favs) := by
  refine ⟨?_, ?_, ?_, ?_, ?_⟩
  · intro rule h
    simp [ruleAcrossMarket, h]
  · intro rule b hne hset
    simp [ruleAcrossMarket, hne, hset]
  · intro rule hne hnone
    simp [ruleAcrossMarket, hne, hnone]
  · intro pack rule ev favs ha hm
    have hflags := ruleMatchesEvent_across_flags hm
    rw [ha] at hflags
    simp only [Bool.true_and, Bool.or_eq_false_iff, Bool.and_eq_false_iff] at hflags
    refine ⟨?_, ?_, ?_⟩
    · intro het
      rcases hflags.1.1 with h | h
      · simp [het] at h
      · simpa using h
    · intro het
      rcases hflags.1.2 with h | h
      · simp [het] at h
      · simpa using h
    · intro het
      rcases hflags.2 with h | h
      · simp [het] at h
      · simpa using h
  · intro pack rule ev favs b1 b2 b3 hpd
    have hra : ruleAcrossMarket rule = false := by simp [ruleAcrossMarket, hpd]
    unfold ruleMatchesEvent
    simp [hra, priceDropFilterFails]

/-- Witness for C2 at concrete inputs: `ruleGN` is effectively
market-wide and matches `evGN` in `packX`, hence `evGN.marketNew` holds. -/
theorem acrossMarket_semantics_witness : evGN.marketNew = true :=
  ((acrossMarket_semantics.2.2.2.1 packX ruleGN evGN [] rfl rfl).1) rfl

/-! ### Claim C10: shortlist scope requires favourites and a known SKU -/

theorem ruleMatchesEvent_eq_false_of_shortlist {pack : EmailEventPackV1}
    {rule : EmailRuleV1} {ev : EmailPackEventV1} {favs : List String}
    (hscope : rule.scope = "shortlist")
    (hsl : skuInShortlist pack ev.sku favs = false) :
    ruleMatchesEvent pack rule ev favs = false := by
  unfold ruleMatchesEvent
  split
  · rfl
  · split
    · rfl
    · simp [hscope, hsl]

/-- C10: a shortlist-scoped rule never matches when the favourites set is
empty, and never matches an event whose SKU is absent from the pack's
`skus` map. -/
theorem shortlist_requires_favs_and_sku :
    (∀ (pack : EmailEventPackV1) (rule : EmailRuleV1) (ev : EmailPackEventV1)
        (favs : List String), rule.scope = "shortlist" → favs = [] →
        ruleMatchesEvent pack rule ev favs = false)
    ∧ (∀ (pack : EmailEventPackV1) (rule : EmailRuleV1) (ev : EmailPackEventV1)
        (favs : List String), rule.scope = "shortlist" →
        pack.skus.lookup ev.sku = none →
        ruleMatchesEvent pack rule ev favs = false) := by
  constructor
  · intro pack rule ev favs hscope hfavs
    apply ruleMatchesEvent_eq_false_of_shortlist hscope
    simp [skuInShortlist, hfavs]
  · intro pack rule ev favs hscope hlookup
    apply ruleMatchesEvent_eq_false_of_shortlist hscope
    unfold skuInShortlist
    split
    · rfl
    · rw [hlookup]

/-- Witness for C10: the shortlist rule `ruleSL` does not match `evGN`
with no favourites, nor an event with an unknown SKU. -/
theorem shortlist_requires_favs_and_sku_witness :
    ruleMatchesEvent packX ruleSL evGN [] = false
    ∧ ruleMatchesEvent { packX with skus := [] } ruleSL evGN ["X"] = false :=
  ⟨shortlist_requires_favs_and_sku.1 packX ruleSL evGN [] rfl rfl,
    shortlist_requires_favs_and_sku.2 { packX with skus := [] } ruleSL evGN ["X"] rfl rfl⟩

/-! ### Claim C4: total, deterministic sort order of the output -/

theorem strCmp_empty_left_not_gt (s : String) : strCmp "" s ≠ .gt := by
  unfold strCmp
  have h : ("" : String).data = [] := rfl
  rw [h]
  cases s.data <;> simp [lexCmpChars]

/-- C4: the matcher output is sorted by the comparator `matchLe`, which
is total and orders ascending by `eventType`, then SKU display name,
then `storeId`; an empty `storeId` sorts no later than any other entry
with the same `eventType` and display name. -/
theorem matcher_output_sorted :
    (∀ (pack : EmailEventPackV1) (rules : List EmailRuleV1) (favs : List String),
      (matchEventsForUser pack rules favs).Pairwise (fun a b => matchLe a b = true))
    ∧ (∀ a b : MatchedEmailEvent, matchLe a b = true ∨ matchLe b a = true)
    ∧ (∀ a b : MatchedEmailEvent,
        matchLe a b = true ↔
          (strCmp a.eventType b.eventType = .lt
            ∨ (a.eventType = b.eventType
                ∧ (strCmp a.skuName b.skuName = .lt
                    ∨ (a.skuName = b.skuName ∧ strCmp a.storeId b.storeId ≠ .gt)))))
    ∧ (∀ a b : MatchedEmailEvent, a.eventType = b.eventType →
        a.skuName = b.skuName → a.storeId = "" → matchLe a b = true) := by
  refine ⟨?_, matchLe_total, fun a b => matchLe_iff, ?_⟩
  · intro pack rules favs
    unfold matchEventsForUser
    apply List.sorted_mergeSort
    · exact fun a b c h1 h2 => matchLe_trans h1 h2
    · exact matchLe_total_bool
  · intro a b he hn hs
    rw [matchLe_iff]
    exact Or.inr ⟨he, Or.inr ⟨hn, hs ▸ strCmp_empty_left_not_gt _⟩⟩

/-- Witness for C4's conditional parts at concrete entries: the
empty-`storeId` entry sorts before its non-empty sibling. -/
theorem matcher_output_sorted_witness :
    matchLe mEmptyStore mNonEmptyStore = true :=
  matcher_output_sorted.2.2.2 mEmptyStore mNonEmptyStore rfl rfl rfl

/-! ### Stability of the modelled sort

Generic lemmas: a stable merge sort leaves the relative order of tied
elements unchanged, so a sorted list is determined by its multiset
together with the per-tie-class sublists. -/

theorem mergeSort_filter_tied {α : Type _} {le : α → α → Bool}
    (htrans : ∀ a b c, le a b → le b c → le a c)
    (htotal : ∀ a b, le a b || le b a)
    (q : α → Bool) (hq : ∀ a b, q a → q b → le a b) (l : List α) :
    (l.mergeSort le).filter q = l.filter q := by
  have hsub : l.filter q <+ l := List.filter_sublist l
  have hpw : (l.filter q).Pairwise (fun a b => le a b = true) := by
    apply List.pairwise_of_forall_mem_list
    intro a ha b hb
    exact hq a b (List.of_mem_filter ha) (List.of_mem_filter hb)
  have hsub2 : l.filter q <+ l.mergeSort le :=
    List.sublist_mergeSort htrans htotal hpw hsub
  have hself : (l.filter q).filter q = l.filter q :=
    List.filter_eq_self.mpr fun a ha => List.of_mem_filter ha
  have hsub3 : l.filter q <+ (l.mergeSort le).filter q := by
    have := hsub2.filter q
    rwa [hself] at this
  have hlen : ((l.mergeSort le).filter q).length = (l.filter q).length := by
    rw [← List.countP_eq_length_filter, ← List.countP_eq_length_filter]
    exact (List.mergeSort_perm l le).countP_eq q
  exact (hsub3.eq_of_length hlen.symm).symm

theorem sorted_eq_of_perm_of_tied_filter {α : Type _} {le : α → α → Bool}
    (htotal : ∀ a b, le a b || le b a) :
    ∀ {l₁ l₂ : List α}, l₁ ~ l₂ →
      l₁.Pairwise (fun a b => le a b = true) →
      l₂.Pairwise (fun a b => le a b = true) →
      (∀ x, l₁.filter (fun y => le x y && le y x)
        = l₂.filter (fun y => le x y && le y x)) →
      l₁ = l₂ := by
  have hrefl : ∀ z : α, le z z = true := by
    intro z
    have := htotal z z
    simpa using this
  intro l₁
  induction l₁ with
  | nil =>
    intro l₂ hp _ _ _
    exact (hp.symm.eq_nil).symm
  | cons a t₁ ih =>
    intro l₂ hp hpw1 hpw2 hf
    cases l₂ with
    | nil => cases hp.eq_nil
    | cons b t₂ =>
      have hmem_b : b ∈ a :: t₁ := hp.mem_iff.mpr (List.mem_cons_self b t₂)
      have hab : le a b = true := by
        rcases List.mem_cons.mp hmem_b with heq | hb
        · rw [heq]; exact hrefl a
        · exact List.rel_of_pairwise_cons hpw1 hb
      have hmem_a : a ∈ b :: t₂ := hp.mem_iff.mp (List.mem_cons_self a t₁)
      have hba : le b a = true := by
        rcases List.mem_cons.mp hmem_a with heq | ha2
        · rw [heq]; exact hrefl b
        · exact List.rel_of_pairwise_cons hpw2 ha2
      have hfa := hf a
      rw [List.filter_cons_of_pos (by simp [hrefl a]),
        List.filter_cons_of_pos (by simp [hab, hba])] at hfa
      obtain ⟨rfl, htail⟩ : a = b ∧
          t₁.filter (fun y => le a y && le y a)
            = t₂.filter (fun y => le a y && le y a) := by
        have h1 := List.head_eq_of_cons_eq hfa
        have h2 := List.tail_eq_of_cons_eq hfa
        exact ⟨h1, h2⟩
      have hpt : t₁ ~ t₂ := hp.cons_inv
      have htails : t₁ = t₂ := by
        apply ih hpt (List.pairwise_cons.mp hpw1).2 (List.pairwise_cons.mp hpw2).2
        intro x
        have hx := hf x
        by_cases hqa : (le x a && le a x) = true
        · have e1 : (a :: t₁).filter (fun y => le x y && le y x)
              = a :: t₁.filter (fun y => le x y && le y x) :=
            List.filter_cons_of_pos hqa
          have e2 : (a :: t₂).filter (fun y => le x y && le y x)
              = a :: t₂.filter (fun y => le x y && le y x) :=
            List.filter_cons_of_pos hqa
          rw [e1, e2] at hx
          exact List.tail_eq_of_cons_eq hx
        · have e1 : (a :: t₁).filter (fun y => le x y && le y x)
              = t₁.filter (fun y => le x y && le y x) :=
            List.filter_cons_of_neg (by simpa using hqa)
          have e2 : (a :: t₂).filter (fun y => le x y && le y x)
              = t₂.filter (fun y => le x y && le y x) :=
            List.filter_cons_of_neg (by simpa using hqa)
          rw [e1, e2] at hx
          exact hx
      rw [htails]

theorem mergeSort_eq_of_tied_filter {α : Type _} {le : α → α → Bool}
    (htrans : ∀ a b c, le a b → le b c → le a c)
    (htotal : ∀ a b, le a b || le b a)
    {P Q : List α} (hperm : P ~ Q)
    (hf : ∀ x, P.filter (fun y => le x y && le y x)
      = Q.filter (fun y => le x y && le y x)) :
    P.mergeSort le = Q.mergeSort le := by
  have hq : ∀ x : α, ∀ a b, (le x a && le a x) → (le x b && le b x) → le a b := by
    intro x a b ha hb
    rw [Bool.and_eq_true] at ha hb
    exact htrans a x b ha.2 hb.1
  apply sorted_eq_of_perm_of_tied_filter htotal
  · exact (List.mergeSort_perm P le).trans (hperm.trans (List.mergeSort_perm Q le).symm)
  · exact List.sorted_mergeSort htrans htotal P
  · exact List.sorted_mergeSort htrans htotal Q
  · intro x
    rw [mergeSort_filter_tied htrans htotal _ (hq x) P,
      mergeSort_filter_tied htrans htotal _ (hq x) Q]
    exact hf x

/-! ### Association-map lemmas for the deduplicating maps -/

theorem marketKey_addRid (v : MatchedEmailEvent) (rid : String) :
    marketKey (addRid v rid) = marketKey v := by
  unfold addRid
  split <;> rfl

theorem storeKey_addRid (v : MatchedEmailEvent) (rid : String) :
    storeKey (addRid v rid) = storeKey v := by
  unfold addRid
  split <;> rfl

theorem insertAssoc_of_lookup_none {m : List (String × MatchedEmailEvent)}
    {k rid : String} {v : MatchedEmailEvent} (h : m.lookup k = none) :
    insertAssoc m k rid v = m ++ [(k, v)] := by
  unfold insertAssoc
  rw [h]

theorem insertAssoc_of_lookup_some {m : List (String × MatchedEmailEvent)}
    {k rid : String} {v w : MatchedEmailEvent} (h : m.lookup k = some w) :
    insertAssoc m k rid v
      = m.map (fun kv => if kv.1 == k then (kv.1, addRid kv.2 rid) else kv) := by
  unfold insertAssoc
  rw [h]

theorem insertAssoc_inv {f : MatchedEmailEvent → String}
    (hf : ∀ v rid, f (addRid v rid) = f v)
    {m : List (String × MatchedEmailEvent)} {k rid : String} {v : MatchedEmailEvent}
    (hkeys : ∀ kv ∈ m, kv.1 = f kv.2) (hnd : (m.map Prod.fst).Nodup)
    (hk : k = f v) :
    (∀ kv ∈ insertAssoc m k rid v, kv.1 = f kv.2)
    ∧ ((insertAssoc m k rid v).map Prod.fst).Nodup := by
  rcases h : m.lookup k with _ | w
  · rw [insertAssoc_of_lookup_none h]
    constructor
    · intro kv hkv
      rcases List.mem_append.mp hkv with h1 | h1
      · exact hkeys kv h1
      · have : kv = (k, v) := by simpa using h1
        rw [this]
        exact hk
    · rw [List.map_append]
      refine List.Nodup.append hnd (List.nodup_singleton k) ?_
      intro a ha hb
      have hae : a = k := by simpa using hb
      subst hae
      rcases List.mem_map.mp ha with ⟨kv, hkv, hfst⟩
      have := List.lookup_eq_none_iff.mp h kv hkv
      rw [hfst] at this
      simp at this
  · rw [insertAssoc_of_lookup_some h]
    have hfst : (m.map (fun kv =>
        if kv.1 == k then (kv.1, addRid kv.2 rid) else kv)).map Prod.fst
        = m.map Prod.fst := by
      rw [List.map_map]
      apply List.map_congr_left
      intro kv _
      dsimp only [Function.comp]
      split <;> rfl
    constructor
    · intro kv hkv
      rcases List.mem_map.mp hkv with ⟨kv0, hkv0, hkv0e⟩
      rw [← hkv0e]
      split
      · show kv0.1 = f (addRid kv0.2 rid)
        rw [hf]
        exact hkeys kv0 hkv0
      · exact hkeys kv0 hkv0
    · rw [hfst]
      exact hnd

theorem foldl_buildStep_inv :
    ∀ (its : List DItem) (bm bi : List (String × MatchedEmailEvent)),
      (∀ kv ∈ bm, kv.1 = marketKey kv.2) → (bm.map Prod.fst).Nodup →
      (∀ kv ∈ bi, kv.1 = storeKey kv.2) → (bi.map Prod.fst).Nodup →
      (∀ kv ∈ (List.foldl buildStep (bm, bi) its).1, kv.1 = marketKey kv.2)
      ∧ ((List.foldl buildStep (bm, bi) its).1.map Prod.fst).Nodup
      ∧ (∀ kv ∈ (List.foldl buildStep (bm, bi) its).2, kv.1 = storeKey kv.2)
      ∧ ((List.foldl buildStep (bm, bi) its).2.map Prod.fst).Nodup := by
  intro its
  induction its with
  | nil =>
    intro bm bi h1 h2 h3 h4
    exact ⟨h1, h2, h3, h4⟩
  | cons it rest ih =>
    intro bm bi h1 h2 h3 h4
    rw [List.foldl_cons]
    cases hac : it.across with
    | true =>
      have hstep : buildStep (bm, bi) it
          = (insertAssoc bm (marketKey it.m) it.rid it.m, bi) := by
        unfold buildStep
        rw [hac]
        simp
      rw [hstep]
      have hins := @insertAssoc_inv marketKey marketKey_addRid bm
        (marketKey it.m) it.rid it.m h1 h2 rfl
      exact ih _ _ hins.1 hins.2 h3 h4
    | false =>
      have hstep : buildStep (bm, bi) it
          = (bm, insertAssoc bi (storeKey it.m) it.rid it.m) := by
        unfold buildStep
        rw [hac]
        simp
      rw [hstep]
      have hins := @insertAssoc_inv storeKey storeKey_addRid bi
        (storeKey it.m) it.rid it.m h3 h4 rfl
      exact ih _ _ h1 h2 hins.1 hins.2

theorem lookup_singleton_none {β : Type _} {k k' : String} {v : β} (h : k ≠ k') :
    List.lookup k [(k', v)] = none := by
  have hb : (k == k') = false := beq_eq_false_iff_ne.mpr h
  simp [List.lookup, hb]

/-- Feeding items whose keys are fresh and pairwise distinct just appends
them, in order, to the respective map. -/
theorem foldl_buildStep_of_fresh :
    ∀ (its : List DItem) (bm bi : List (String × MatchedEmailEvent)),
      (∀ it ∈ its, it.across = true → bm.lookup (marketKey it.m) = none) →
      (∀ it ∈ its, it.across = false → bi.lookup (storeKey it.m) = none) →
      ((its.filter (fun it => it.across)).map (fun it => marketKey it.m)).Nodup →
      ((its.filter (fun it => !it.across)).map (fun it => storeKey it.m)).Nodup →
      List.foldl buildStep (bm, bi) its =
        (bm ++ (its.filter (fun it => it.across)).map
            (fun it => (marketKey it.m, it.m)),
         bi ++ (its.filter (fun it => !it.across)).map
            (fun it => (storeKey it.m, it.m))) := by
  intro its
  induction its with
  | nil => intro bm bi _ _ _ _; simp
  | cons it rest ih =>
    intro bm bi h1 h2 hnd1 hnd2
    rw [List.foldl_cons]
    cases hac : it.across with
    | true =>
      have hkn : bm.lookup (marketKey it.m) = none :=
        h1 it (List.mem_cons_self it rest) hac
      have hstep : buildStep (bm, bi) it = (bm ++ [(marketKey it.m, it.m)], bi) := by
        unfold buildStep
        rw [hac]
        simp [insertAssoc_of_lookup_none hkn]
      rw [hstep]
      have hfT : (it :: rest).filter (fun it => it.across)
          = it :: rest.filter (fun it => it.across) :=
        List.filter_cons_of_pos hac
      have hfS : (it :: rest).filter (fun it => !it.across)
          = rest.filter (fun it => !it.across) :=
        List.filter_cons_of_neg (by simp [hac])
      rw [hfT] at hnd1
      rw [hfS] at hnd2
      rw [List.map_cons] at hnd1
      have hnotin := (List.nodup_cons.mp hnd1).1
      have hnd1' := (List.nodup_cons.mp hnd1).2
      have h1' : ∀ it' ∈ rest, it'.across = true →
          (bm ++ [(marketKey it.m, it.m)]).lookup (marketKey it'.m) = none := by
        intro it' hit' hac'
        rw [List.lookup_append, h1 it' (List.mem_cons_of_mem it hit') hac']
        have hne : marketKey it'.m ≠ marketKey it.m := by
          intro he
          apply hnotin
          rw [← he]
          exact List.mem_map.mpr ⟨it', List.mem_filter.mpr ⟨hit', hac'⟩, rfl⟩
        simp [lookup_singleton_none hne]
      have h2' : ∀ it' ∈ rest, it'.across = false →
          bi.lookup (storeKey it'.m) = none :=
        fun it' hit' hac' => h2 it' (List.mem_cons_of_mem it hit') hac'
      rw [ih (bm ++ [(marketKey it.m, it.m)]) bi h1' h2' hnd1' hnd2]
      rw [hfT, hfS, List.map_cons]
      simp
    | false =>
      have hkn : bi.lookup (storeKey it.m) = none :=
        h2 it (List.mem_cons_self it rest) hac
      have hstep : buildStep (bm, bi) it = (bm, bi ++ [(storeKey it.m, it.m)]) := by
        unfold buildStep
        rw [hac]
        simp [insertAssoc_of_lookup_none hkn]
      rw [hstep]
      have hfT : (it :: rest).filter (fun it => it.across)
          = rest.filter (fun it => it.across) :=
        List.filter_cons_of_neg (by simp [hac])
      have hfS : (it :: rest).filter (fun it => !it.across)
          = it :: rest.filter (fun it => !it.across) :=
        List.filter_cons_of_pos (by simp [hac])
      rw [hfT] at hnd1
      rw [hfS] at hnd2
      rw [List.map_cons] at hnd2
      have hnotin := (List.nodup_cons.mp hnd2).1
      have hnd2' := (List.nodup_cons.mp hnd2).2
      have h1' : ∀ it' ∈ rest, it'.across = true →
          bm.lookup (marketKey it'.m) = none :=
        fun it' hit' hac' => h1 it' (List.mem_cons_of_mem it hit') hac'
      have h2' : ∀ it' ∈ rest, it'.across = false →
          (bi ++ [(storeKey it.m, it.m)]).lookup (storeKey it'.m) = none := by
        intro it' hit' hac'
        rw [List.lookup_append, h2 it' (List.mem_cons_of_mem it hit') hac']
        have hne : storeKey it'.m ≠ storeKey it.m := by
          intro he
          apply hnotin
          rw [← he]
          exact List.mem_map.mpr ⟨it', List.mem_filter.mpr ⟨hit', by simp [hac']⟩, rfl⟩
        simp [lookup_singleton_none hne]
      rw [ih bm (bi ++ [(storeKey it.m, it.m)]) h1' h2' hnd1 hnd2']
      rw [hfT, hfS, List.map_cons]
      simp

/-- `buildMaps` on a stream of fresh, pairwise-distinct keys is just the
keyed stream split by tag. -/
theorem buildMaps_of_fresh (its : List DItem)
    (hnd1 : ((its.filter (fun it => it.across)).map
      (fun it => marketKey it.m)).Nodup)
    (hnd2 : ((its.filter (fun it => !it.across)).map
      (fun it => storeKey it.m)).Nodup) :
    buildMaps its =
      ((its.filter (fun it => it.across)).map (fun it => (marketKey it.m, it.m)),
       (its.filter (fun it => !it.across)).map (fun it => (storeKey it.m, it.m))) := by
  unfold buildMaps
  rw [foldl_buildStep_of_fresh its [] []
    (fun _ _ _ => rfl) (fun _ _ _ => rfl) hnd1 hnd2]
  simp

theorem buildMaps_inv (its : List DItem) :
    (∀ kv ∈ (buildMaps its).1, kv.1 = marketKey kv.2)
    ∧ ((buildMaps its).1.map Prod.fst).Nodup
    ∧ (∀ kv ∈ (buildMaps its).2, kv.1 = storeKey kv.2)
    ∧ ((buildMaps its).2.map Prod.fst).Nodup := by
  unfold buildMaps
  exact foldl_buildStep_inv its [] []
    (by intro kv h; cases h) (by simp) (by intro kv h; cases h) (by simp)

/-! ### Claim C8: idempotence of the Deduplicator -/

theorem tagLe_trans (a b c : Bool × MatchedEmailEvent) :
    matchLe a.2 b.2 → matchLe b.2 c.2 → matchLe a.2 c.2 :=
  fun h1 h2 => matchLe_trans h1 h2

theorem tagLe_total (a b : Bool × MatchedEmailEvent) :
    matchLe a.2 b.2 || matchLe b.2 a.2 :=
  matchLe_total_bool a.2 b.2

/-- The values of `byMarket` have pairwise-distinct market keys, and the
values of `byId` pairwise-distinct store keys. -/
theorem buildMaps_vals_keys_nodup (its : List DItem) :
    (((buildMaps its).1.map (fun kv => kv.2)).map marketKey).Nodup
    ∧ (((buildMaps its).2.map (fun kv => kv.2)).map storeKey).Nodup := by
  obtain ⟨hk1, hn1, hk2, hn2⟩ := buildMaps_inv its
  constructor
  · rw [List.map_map]
    have : (buildMaps its).1.map (marketKey ∘ fun kv => kv.2)
        = (buildMaps its).1.map Prod.fst := by
      apply List.map_congr_left
      intro kv hkv
      exact (hk1 kv hkv).symm
    rw [this]
    exact hn1
  · rw [List.map_map]
    have : (buildMaps its).2.map (storeKey ∘ fun kv => kv.2)
        = (buildMaps its).2.map Prod.fst := by
      apply List.map_congr_left
      intro kv hkv
      exact (hk2 kv hkv).symm
    rw [this]
    exact hn2

/-- C8: the Deduplicator (two-map accumulation, precedence filter, stable
sort) is idempotent on its own output, and `matchEventsForUser` is the
Deduplicator applied to the matcher's (rule, event) stream. -/
theorem dedup_idempotent :
    (∀ its : List DItem,
      dedupMatches ((dedupMatches its).map retag) = dedupMatches its)
    ∧ (∀ (pack : EmailEventPackV1) (rules : List EmailRuleV1) (favs : List String),
        matchEventsForUser pack rules favs
          = (dedupMatches (matchStream pack rules favs)).map Prod.snd) := by
  constructor
  · intro its
    -- notation
    set bm := (buildMaps its).1 with hbm
    set bi := (buildMaps its).2 with hbi
    set surv := (bm.map (fun kv => kv.2)).filter
      (fun x => !(storeMarketIds bi).contains x.marketId) with hsurv
    set T := surv.map (fun m => ((true : Bool), m)) with hT
    set S := (bi.map (fun kv => kv.2)).map (fun m => ((false : Bool), m)) with hS
    have hpre : dedupPre its = T ++ S := rfl
    set w := dedupMatches its with hw
    have hwsort : w = (dedupPre its).mergeSort (fun x y => matchLe x.2 y.2) := rfl
    have hwperm : w ~ T ++ S := by
      rw [hwsort, hpre]
      exact List.mergeSort_perm _ _
    -- tags inside T and S
    have hTtag : ∀ tm ∈ T, tm.1 = true := by
      intro tm htm
      rcases List.mem_map.mp htm with ⟨m, _, rfl⟩
      rfl
    have hStag : ∀ tm ∈ S, tm.1 = false := by
      intro tm htm
      rcases List.mem_map.mp htm with ⟨m, _, rfl⟩
      rfl
    -- the partition of the pre list by tag
    have hfilT : (T ++ S).filter (fun tm => tm.1) = T := by
      rw [List.filter_append]
      have h1 : T.filter (fun tm => tm.1) = T :=
        List.filter_eq_self.mpr fun tm htm => by rw [hTtag tm htm]
      have h2 : S.filter (fun tm => tm.1) = [] :=
        List.filter_eq_nil_iff.mpr fun tm htm => by rw [hStag tm htm]; simp
      rw [h1, h2, List.append_nil]
    have hfilS : (T ++ S).filter (fun tm => !tm.1) = S := by
      rw [List.filter_append]
      have h1 : T.filter (fun tm => !tm.1) = [] :=
        List.filter_eq_nil_iff.mpr fun tm htm => by rw [hTtag tm htm]; simp
      have h2 : S.filter (fun tm => !tm.1) = S :=
        List.filter_eq_self.mpr fun tm htm => by rw [hStag tm htm]; rfl
      rw [h1, h2, List.nil_append]
    -- partition of the sorted output
    have hwT : w.filter (fun tm => tm.1) ~ T := by
      have := hwperm.filter (fun tm => tm.1)
      rwa [hfilT] at this
    have hwS : w.filter (fun tm => !tm.1) ~ S := by
      have := hwperm.filter (fun tm => !tm.1)
      rwa [hfilS] at this
    -- distinct keys inside the partitions
    obtain ⟨hndM, hndS⟩ := buildMaps_vals_keys_nodup its
    have hsurvnd : (surv.map marketKey).Nodup := by
      have hsub : surv <+ bm.map (fun kv => kv.2) := List.filter_sublist _
      exact List.Nodup.sublist (hsub.map marketKey) hndM
    have hTmap : T.map (fun tm => marketKey tm.2) = surv.map marketKey := by
      rw [hT, List.map_map]
      rfl
    have hndT : ((w.filter (fun tm => tm.1)).map
        (fun tm => marketKey tm.2)).Nodup := by
      apply (hwT.map (fun tm => marketKey tm.2)).symm.nodup
      rw [hTmap]
      exact hsurvnd
    have hSmap : S.map (fun tm => storeKey tm.2)
        = (bi.map (fun kv => kv.2)).map storeKey := by
      rw [hS, List.map_map]
      rfl
    have hndSw : ((w.filter (fun tm => !tm.1)).map
        (fun tm => storeKey tm.2)).Nodup := by
      apply (hwS.map (fun tm => storeKey tm.2)).symm.nodup
      rw [hSmap]
      exact hndS
    -- the rerun input
    set its2 := w.map retag with hits2
    have hfilA : its2.filter (fun it => it.across)
        = (w.filter (fun tm => tm.1)).map retag := by
      rw [hits2, List.filter_map]
      rfl
    have hfilB : its2.filter (fun it => !it.across)
        = (w.filter (fun tm => !tm.1)).map retag := by
      rw [hits2, List.filter_map]
      rfl
    have hbuild2 : buildMaps its2
        = ((w.filter (fun tm => tm.1)).map (fun tm => (marketKey tm.2, tm.2)),
           (w.filter (fun tm => !tm.1)).map (fun tm => (storeKey tm.2, tm.2))) := by
      have hnd1 : ((its2.filter (fun it => it.across)).map
          (fun it => marketKey it.m)).Nodup := by
        rw [hfilA, List.map_map]
        exact hndT
      have hnd2 : ((its2.filter (fun it => !it.across)).map
          (fun it => storeKey it.m)).Nodup := by
        rw [hfilB, List.map_map]
        exact hndSw
      rw [buildMaps_of_fresh its2 hnd1 hnd2, hfilA, hfilB,
        List.map_map, List.map_map]
      rfl
    have hvalsA : (buildMaps its2).1.map (fun kv => kv.2)
        = (w.filter (fun tm => tm.1)).map (fun tm => tm.2) := by
      rw [hbuild2, List.map_map]
      rfl
    have hvalsB : (buildMaps its2).2.map (fun kv => kv.2)
        = (w.filter (fun tm => !tm.1)).map (fun tm => tm.2) := by
      rw [hbuild2, List.map_map]
      rfl
    -- the store-id suppression set is the same, up to permutation
    have hidsperm : storeMarketIds (buildMaps its2).2 ~ storeMarketIds bi := by
      unfold storeMarketIds
      apply List.Perm.filter
      have h0 : (buildMaps its2).2.map (fun kv => kv.2.marketId)
          = (w.filter (fun tm => !tm.1)).map (fun tm => tm.2.marketId) := by
        rw [hbuild2, List.map_map]
        rfl
      rw [h0]
      have h1 := hwS.map (fun tm => tm.2.marketId)
      refine h1.trans (List.Perm.of_eq ?_)
      rw [hS, List.map_map, List.map_map]
      rfl
    have hids : ∀ s : String,
        (storeMarketIds (buildMaps its2).2).contains s
          = (storeMarketIds bi).contains s := by
      intro s
      show List.elem s _ = List.elem s _
      rw [List.elem_eq_mem, List.elem_eq_mem]
      exact decide_eq_decide.mpr hidsperm.mem_iff
    -- the rerun precedence filter keeps every market-level entry
    have hkeep : ((buildMaps its2).1.map (fun kv => kv.2)).filter
        (fun x => !(storeMarketIds (buildMaps its2).2).contains x.marketId)
        = (buildMaps its2).1.map (fun kv => kv.2) := by
      apply List.filter_eq_self.mpr
      intro v hv
      show (!(storeMarketIds (buildMaps its2).2).contains v.marketId) = true
      rw [hids v.marketId]
      rw [hvalsA] at hv
      rcases List.mem_map.mp hv with ⟨tm, htm, rfl⟩
      have htmT : tm ∈ T := hwT.mem_iff.mp htm
      rcases List.mem_map.mp htmT with ⟨m, hm, heq⟩
      have hm2 : tm.2 ∈ surv := by
        rw [← heq]
        exact hm
      have := (List.mem_filter.mp hm2).2
      simpa using this
    -- the rerun pre-sort list is the tag partition of `w`
    have hmapidT : (w.filter (fun tm => tm.1)).map
        (fun tm => ((true : Bool), tm.2)) = w.filter (fun tm => tm.1) := by
      conv_rhs => rw [← List.map_id (w.filter (fun tm => tm.1))]
      apply List.map_congr_left
      intro tm htm
      have ht := List.of_mem_filter htm
      cases tm with
      | mk b m =>
        simp only at ht
        rw [ht]
        rfl
    have hmapidS : (w.filter (fun tm => !tm.1)).map
        (fun tm => ((false : Bool), tm.2)) = w.filter (fun tm => !tm.1) := by
      conv_rhs => rw [← List.map_id (w.filter (fun tm => !tm.1))]
      apply List.map_congr_left
      intro tm htm
      have ht := List.of_mem_filter htm
      cases tm with
      | mk b m =>
        simp only [Bool.not_eq_true'] at ht
        rw [ht]
        rfl
    have hpre2 : dedupPre its2
        = w.filter (fun tm => tm.1) ++ w.filter (fun tm => !tm.1) := by
      have hd2 : dedupPre its2
          = (((buildMaps its2).1.map (fun kv => kv.2)).filter
              (fun x => !(storeMarketIds (buildMaps its2).2).contains x.marketId)).map
              (fun m => ((true : Bool), m))
            ++ ((buildMaps its2).2.map (fun kv => kv.2)).map
              (fun m => ((false : Bool), m)) := rfl
      rw [hd2, hkeep, hvalsA, hvalsB, List.map_map, List.map_map]
      show (w.filter (fun tm => tm.1)).map (fun tm => ((true : Bool), tm.2))
          ++ (w.filter (fun tm => !tm.1)).map (fun tm => ((false : Bool), tm.2)) = _
      rw [hmapidT, hmapidS]
    -- tie classes are ordered identically in the partition and the stream
    have htie : ∀ x : Bool × MatchedEmailEvent,
        (w.filter (fun tm => tm.1) ++ w.filter (fun tm => !tm.1)).filter
            (fun y => matchLe x.2 y.2 && matchLe y.2 x.2)
          = (dedupPre its).filter
            (fun y => matchLe x.2 y.2 && matchLe y.2 x.2) := by
      intro x
      have hq1 : ∀ a b : Bool × MatchedEmailEvent,
          ((matchLe x.2 a.2 && matchLe a.2 x.2) && a.1)
          → ((matchLe x.2 b.2 && matchLe b.2 x.2) && b.1)
          → matchLe a.2 b.2 := by
        intro a b ha hb
        rw [Bool.and_eq_true, Bool.and_eq_true] at ha hb
        exact matchLe_trans ha.1.2 hb.1.1
      have hq2 : ∀ a b : Bool × MatchedEmailEvent,
          ((matchLe x.2 a.2 && matchLe a.2 x.2) && !a.1)
          → ((matchLe x.2 b.2 && matchLe b.2 x.2) && !b.1)
          → matchLe a.2 b.2 := by
        intro a b ha hb
        rw [Bool.and_eq_true, Bool.and_eq_true] at ha hb
        exact matchLe_trans ha.1.2 hb.1.1
      rw [List.filter_append]
      rw [List.filter_filter, List.filter_filter]
      rw [hwsort]
      rw [mergeSort_filter_tied tagLe_trans tagLe_total _ hq1 (dedupPre its),
        mergeSort_filter_tied tagLe_trans tagLe_total _ hq2 (dedupPre its)]
      -- now recombine on the pre list
      rw [hpre]
      rw [List.filter_append, List.filter_append, List.filter_append]
      have e1 : T.filter (fun a =>
          (matchLe x.2 a.2 && matchLe a.2 x.2) && a.1)
          = T.filter (fun y => matchLe x.2 y.2 && matchLe y.2 x.2) := by
        apply List.filter_congr
        intro a ha
        rw [hTtag a ha]
        simp
      have e2 : S.filter (fun a =>
          (matchLe x.2 a.2 && matchLe a.2 x.2) && a.1) = [] := by
        apply List.filter_eq_nil_iff.mpr
        intro a ha
        rw [hStag a ha]
        simp
      have e3 : T.filter (fun a =>
          (matchLe x.2 a.2 && matchLe a.2 x.2) && !a.1) = [] := by
        apply List.filter_eq_nil_iff.mpr
        intro a ha
        rw [hTtag a ha]
        simp
      have e4 : S.filter (fun a =>
          (matchLe x.2 a.2 && matchLe a.2 x.2) && !a.1)
          = S.filter (fun y => matchLe x.2 y.2 && matchLe y.2 x.2) := by
        apply List.filter_congr
        intro a ha
        rw [hStag a ha]
        simp
      rw [e1, e2, e3, e4, List.append_nil, List.nil_append]
    -- assemble
    have hpartperm : w.filter (fun tm => tm.1) ++ w.filter (fun tm => !tm.1)
        ~ dedupPre its := by
      have h1 : w.filter (fun tm => tm.1) ++ w.filter (fun tm => !tm.1) ~ w :=
        List.filter_append_perm _ w
      refine h1.trans ?_
      rw [hwsort]
      exact List.mergeSort_perm _ _
    show (dedupPre its2).mergeSort (fun x y => matchLe x.2 y.2) = w
    rw [hpre2]
    rw [mergeSort_eq_of_tied_filter tagLe_trans tagLe_total hpartperm htie]
    exact hwsort.symm
  · intro pack rules favs
    have hmap : ((dedupPre (matchStream pack rules favs)).mergeSort
        (fun x y => matchLe x.2 y.2)).map Prod.snd
        = ((dedupPre (matchStream pack rules favs)).map Prod.snd).mergeSort
          matchLe :=
      List.map_mergeSort (fun a _ b _ => rfl)
    have hpremap : (dedupPre (matchStream pack rules favs)).map Prod.snd
        = ((buildMaps (matchStream pack rules favs)).1.map
            (fun kv => kv.2)).filter
            (fun x => !(storeMarketIds
              (buildMaps (matchStream pack rules favs)).2).contains x.marketId)
          ++ (buildMaps (matchStream pack rules favs)).2.map (fun kv => kv.2) := by
      have hd : dedupPre (matchStream pack rules favs)
          = (((buildMaps (matchStream pack rules favs)).1.map
              (fun kv => kv.2)).filter
              (fun x => !(storeMarketIds
                (buildMaps (matchStream pack rules favs)).2).contains
                  x.marketId)).map (fun m => ((true : Bool), m))
            ++ ((buildMaps (matchStream pack rules favs)).2.map
              (fun kv => kv.2)).map (fun m => ((false : Bool), m)) := rfl
      rw [hd, List.map_append, List.map_map, List.map_map]
      show (((buildMaps (matchStream pack rules favs)).1.map
          (fun kv => kv.2)).filter
          (fun x => !(storeMarketIds
            (buildMaps (matchStream pack rules favs)).2).contains
              x.marketId)).map (fun m => m)
          ++ ((buildMaps (matchStream pack rules favs)).2.map
            (fun kv => kv.2)).map (fun m => m) = _
      rw [List.map_id', List.map_id']
    unfold matchEventsForUser dedupMatches
    dsimp only
    rw [hmap, hpremap]

/-! ### Claim C3: tolerance of the event-pack validator -/

theorem validateEventsLoop_length :
    ∀ (l : List JVal) (evs : List EmailPackEventV1),
      validateEventsLoop l = .ok evs → evs.length ≤ l.length := by
  intro l
  induction l with
  | nil =>
    intro evs h
    simp only [validateEventsLoop] at h
    cases h
    simp
  | cons e rest ih =>
    intro evs h
    simp only [validateEventsLoop] at h
    cases hx : validateEventEntry e with
    | error msg => rw [hx] at h; cases h
    | ok o =>
      rw [hx] at h
      cases o with
      | none =>
        simp only at h
        have := ih evs h
        simp only [List.length_cons]
        omega
      | some ev =>
        simp only at h
        cases hr : validateEventsLoop rest with
        | error msg => rw [hr] at h; cases h
        | ok evs' =>
          rw [hr] at h
          cases h
          have := ih evs' hr
          simp only [List.length_cons]
          omega

theorem validateEventsLoop_skip :
    ∀ (xs ys : List JVal) (e : JVal), validateEventEntry e = .ok none →
      validateEventsLoop (xs ++ e :: ys) = validateEventsLoop (xs ++ ys) := by
  intro xs
  induction xs with
  | nil =>
    intro ys e he
    show validateEventsLoop (e :: ys) = validateEventsLoop ys
    simp only [validateEventsLoop, he]
  | cons x xs ih =>
    intro ys e he
    show validateEventsLoop (x :: (xs ++ e :: ys))
      = validateEventsLoop (x :: (xs ++ ys))
    simp only [validateEventsLoop]
    rw [ih ys e he]

/-- C3 (counterexample): one event row with an invalid `sku` aborts the
whole pack validation with an error, even though a later row is valid;
the row is not silently skipped. -/
theorem eventpack_bad_sku_aborts :
    validateEvents [evBadSkuJ, evGoodJ]
      = .error "events[].sku must be : + alphanumerics"
    ∧ validateEvents [evGoodJ]
      = .ok [{ id := "e1", marketId := "", eventType := "GLOBAL_NEW",
               sku := "X", storeId := "", storeLabel := "", listingUrl := "",
               marketNew := false, marketReturn := false, marketOut := false }] :=
  ⟨rfl, rfl⟩

/-- C3 (amended): the validator processes at most 50,000 event entries;
non-object rows, rows with unrecognized `eventType`, and rows with a
valid `sku` but invalid non-empty `storeId` are silently skipped without
aborting the batch; but a row whose `sku` is missing or invalid (reached
when the `eventType` is recognized) throws and aborts the whole pack
validation. -/
theorem eventpack_validator_semantics :
    (∀ eventsIn : List JVal,
      validateEvents eventsIn = validateEventsLoop (eventsIn.take 50000))
    ∧ (∀ (eventsIn : List JVal) (evs : List EmailPackEventV1),
        validateEvents eventsIn = .ok evs → evs.length ≤ 50000)
    ∧ (∀ (xs ys : List JVal) (e : JVal), validateEventEntry e = .ok none →
        validateEventsLoop (xs ++ e :: ys) = validateEventsLoop (xs ++ ys))
    ∧ (∀ fs : List (String × JVal),
        EVENT_TYPES.contains (eventTypeOf fs) = false →
        validateEventEntry (.jobj fs) = .ok none)
    ∧ (∀ (fs : List (String × JVal)) (sku : String),
        assertSku (jGet fs "sku") "events[].sku" = .ok sku →
        strFieldTrim fs "storeId" ≠ "" →
        storeIdOk (strFieldTrim fs "storeId") = false →
        validateEventEntry (.jobj fs) = .ok none)
    ∧ (∀ (fs : List (String × JVal)) (msg : String),
        EVENT_TYPES.contains (eventTypeOf fs) = true →
        assertSku (jGet fs "sku") "events[].sku" = .error msg →
        validateEventEntry (.jobj fs) = .error msg) := by
  refine ⟨fun _ => rfl, ?_, validateEventsLoop_skip, ?_, ?_, ?_⟩
  · intro eventsIn evs h
    have h1 := validateEventsLoop_length (eventsIn.take 50000) evs h
    have h2 : (eventsIn.take 50000).length ≤ 50000 := List.length_take_le _ _
    omega
  · intro fs h
    simp only [validateEventEntry, h]
    rfl
  · intro fs sku hsku hne hso
    simp only [validateEventEntry]
    split
    · rfl
    · rw [hsku]
      simp only [hso]
      have hbne : (strFieldTrim fs "storeId" != "") = true := by
        simpa using hne
      rw [if_pos (by simp [hbne])]
  · intro fs msg hct hsku
    simp [validateEventEntry, hct, hsku]
    simpa using hct

/-- Witness for C3's conditional parts: an unrecognized event type is
skipped without affecting the rest of the batch. -/
theorem eventpack_validator_semantics_witness :
    validateEventsLoop [evTypoJ, evGoodJ] = validateEventsLoop [evGoodJ] :=
  eventpack_validator_semantics.2.2.1 [] [evGoodJ] evTypoJ rfl

/-! ### Claim C5: dot-stuffing of the SMTP DATA payload -/

theorem replaceCR_no_cr (l : List Char) : ∀ c ∈ replaceCR l, c ≠ '\r' := by
  intro c hc
  rcases List.mem_map.mp hc with ⟨c0, _, rfl⟩
  by_cases h : c0 = '\r'
  · simp [h]
  · simp [h]

theorem splitLinesOn_ne_nil (s : List Char) : splitLinesOn s ≠ [] := by
  cases s with
  | nil => simp [splitLinesOn]
  | cons c rest =>
    unfold splitLinesOn
    split
    · simp
    · split <;> simp

theorem splitLinesOn_no_cr_nl :
    ∀ (s : List Char), (∀ c ∈ s, c ≠ '\r') →
      ∀ l ∈ splitLinesOn s, ∀ c ∈ l, c ≠ '\r' ∧ c ≠ '\n' := by
  intro s
  induction s with
  | nil =>
    intro _ l hl c hc
    simp [splitLinesOn] at hl
    subst hl
    cases hc
  | cons c0 rest ih =>
    intro hs l hl c hc
    unfold splitLinesOn at hl
    by_cases h0 : c0 = '\n'
    · rw [if_pos h0] at hl
      rcases List.mem_cons.mp hl with rfl | hl2
      · cases hc
      · exact ih (fun c hc => hs c (List.mem_cons_of_mem c0 hc)) l hl2 c hc
    · rw [if_neg h0] at hl
      rcases heq : splitLinesOn rest with _ | ⟨l0, ls⟩
      · exact absurd heq (splitLinesOn_ne_nil rest)
      · rw [heq] at hl
        rcases List.mem_cons.mp hl with rfl | hl2
        · rcases List.mem_cons.mp hc with heq2 | hc2
          · rw [heq2]
            exact ⟨hs c0 (List.mem_cons_self c0 rest), h0⟩
          · exact ih (fun d hd => hs d (List.mem_cons_of_mem c0 hd)) l0
              (heq ▸ List.mem_cons_self l0 ls) c hc2
        · exact ih (fun d hd => hs d (List.mem_cons_of_mem c0 hd)) l
            (heq ▸ List.mem_cons_of_mem l0 hl2) c hc

theorem stuffLine_ne_dot (l : List Char) : stuffLine l ≠ ['.'] := by
  unfold stuffLine
  split
  · intro heq
    have : l = [] := by
      have := List.tail_eq_of_cons_eq heq
      exact this
    rename_i h
    rw [this] at h
    cases h
  · intro heq
    rename_i h
    rw [heq] at h
    exact h rfl

theorem stuffLine_chars (l : List Char) :
    ∀ c ∈ stuffLine l, c = '.' ∨ c ∈ l := by
  unfold stuffLine
  split
  · intro c hc
    exact List.mem_cons.mp hc
  · intro c hc
    exact Or.inr hc

theorem term_infix_straddle :
    ∀ (l w₂ : List Char), (∀ c ∈ l, c ≠ '\r') →
      (crlf ++ '.' :: crlf) <:+: (l ++ crlf ++ w₂) →
      (('.' :: crlf) <+: w₂) ∨ (crlf ++ '.' :: crlf) <:+: w₂ := by
  intro l
  induction l with
  | nil =>
    intro w₂ _ hinf
    obtain ⟨s, t, heq⟩ := hinf
    match s, heq with
    | [], heq =>
      left
      simp only [crlf, List.nil_append, List.cons_append, List.append_nil,
        List.cons.injEq, true_and] at heq
      exact ⟨t, heq⟩
    | [c], heq =>
      exfalso
      simp [crlf] at heq
    | c1 :: c2 :: s', heq =>
      right
      simp only [crlf, List.cons_append, List.nil_append, List.cons.injEq] at heq
      exact ⟨s', t, by simpa [crlf] using heq.2.2⟩
  | cons a l ih =>
    intro w₂ hl hinf
    obtain ⟨s, t, heq⟩ := hinf
    match s, heq with
    | [], heq =>
      exfalso
      simp only [crlf, List.nil_append, List.cons_append, List.append_assoc,
        List.cons.injEq] at heq
      exact hl a (List.mem_cons_self a l) heq.1.symm
    | c :: s', heq =>
      simp only [List.cons_append, List.cons.injEq, List.append_assoc] at heq
      apply ih w₂ (fun c hc => hl c (List.mem_cons_of_mem a hc))
      exact ⟨s', t, by simpa [crlf] using heq.2⟩

theorem joinLines_no_term :
    ∀ (lines : List (List Char)),
      (∀ l ∈ lines, ∀ c ∈ l, c ≠ '\r' ∧ c ≠ '\n') →
      (∀ l ∈ lines, l ≠ ['.']) →
      ¬ (crlf ++ '.' :: crlf) <:+: joinLines lines := by
  intro lines
  induction lines with
  | nil =>
    intro _ _ hinf
    obtain ⟨s, t, heq⟩ := hinf
    simp [joinLines, crlf] at heq
  | cons l ls ih =>
    cases ls with
    | nil =>
      intro hch _ hinf
      obtain ⟨s, t, heq⟩ := hinf
      have hmem : '\r' ∈ joinLines [l] := by
        rw [← heq]
        simp [crlf]
      have : '\r' ∈ l := by simpa [joinLines] using hmem
      exact (hch l (List.mem_cons_self l []) '\r' this).1 rfl
    | cons l2 ls2 =>
      intro hch hdot hinf
      have hjoin : joinLines (l :: l2 :: ls2) = l ++ crlf ++ joinLines (l2 :: ls2) := rfl
      rw [hjoin] at hinf
      have hlnocr : ∀ c ∈ l, c ≠ '\r' :=
        fun c hc => (hch l (List.mem_cons_self l (l2 :: ls2)) c hc).1
      have hch2 : ∀ l' ∈ l2 :: ls2, ∀ c ∈ l', c ≠ '\r' ∧ c ≠ '\n' :=
        fun l' hl' => hch l' (List.mem_cons_of_mem l hl')
      have hdot2 : ∀ l' ∈ l2 :: ls2, l' ≠ ['.'] :=
        fun l' hl' => hdot l' (List.mem_cons_of_mem l hl')
      rcases term_infix_straddle l _ hlnocr hinf with hpre | hinf2
      · obtain ⟨t, ht⟩ := hpre
        have hl2cr : ∀ c ∈ l2, c ≠ '\r' :=
          fun c hc => (hch2 l2 (List.mem_cons_self l2 ls2) c hc).1
        cases ls2 with
        | nil =>
          have hl2 : l2 = '.' :: '\r' :: '\n' :: t := by
            rw [show joinLines [l2] = l2 from rfl] at ht
            simpa [crlf] using ht.symm
          apply hl2cr '\r'
          · rw [hl2]
            simp
          · rfl
        | cons l3 ls3 =>
          have hj3 : joinLines (l2 :: l3 :: ls3) = l2 ++ crlf ++ joinLines (l3 :: ls3) := rfl
          rw [hj3] at ht
          cases l2 with
          | nil => simp [crlf] at ht
          | cons c2 l2' =>
            cases l2' with
            | nil =>
              have hc2 : c2 = '.' := by
                have ht2 := ht
                simp only [crlf, List.cons_append, List.nil_append,
                  List.cons.injEq] at ht2
                exact ht2.1.symm
              exact hdot2 [c2] (List.mem_cons_self _ _) (by rw [hc2])
            | cons c3 l2'' =>
              have hc3 : c3 = '\r' := by
                simp only [crlf, List.cons_append, List.nil_append,
                  List.cons.injEq] at ht
                exact ht.2.1.symm
              apply hl2cr c3
              · exact List.mem_cons_of_mem c2 (List.mem_cons_self c3 l2'')
              · exact hc3
      · exact ih hch2 hdot2 hinf2

/-- C5: `dotStuff` prefixes one extra `.` to every line that begins with
`.`, and the terminator sequence CRLF `.` CRLF never occurs inside the
stuffed body; in particular `".leading dot"` becomes `"..leading dot"`. -/
theorem dotStuff_spec :
    (∀ text : List Char, ¬ (crlf ++ '.' :: crlf) <:+: dotStuff text)
    ∧ (∀ text : List Char,
        dotStuff text = joinLines
          ((splitLinesOn (replaceCR (replaceCRLF text))).map
            (fun l => if l.head? = some '.' then '.' :: l else l)))
    ∧ dotStuff ".leading dot".data = "..leading dot".data := by
  refine ⟨?_, fun _ => rfl, rfl⟩
  intro text
  apply joinLines_no_term
  · intro l hl c hc
    rcases List.mem_map.mp hl with ⟨l0, hl0, rfl⟩
    rcases stuffLine_chars l0 c hc with rfl | hc0
    · exact ⟨by decide, by decide⟩
    · exact splitLinesOn_no_cr_nl _ (replaceCR_no_cr _) l0 hl0 c hc0
  · intro l hl
    rcases List.mem_map.mp hl with ⟨l0, _, rfl⟩
    exact stuffLine_ne_dot l0

/-- Witness for C5's negative part at a concrete body containing a lone
dot line: the stuffed body does not contain the terminator sequence. -/
theorem dotStuff_spec_witness :
    ¬ (crlf ++ '.' :: crlf) <:+: dotStuff "a\r\n.\r\nb".data :=
  dotStuff_spec.1 "a\r\n.\r\nb".data

/-! ### Claim C6: credentials are never sent on an unencrypted connection -/

theorem recvReply_ok {st : SmtpConn} {r : SmtpReply} {st' : SmtpConn}
    (h : recvReply st = .ok r st') :
    st'.sent = st.sent ∧ st'.encrypted = st.encrypted := by
  unfold recvReply at h
  cases hs : st.script with
  | nil => rw [hs] at h; cases h
  | cons a rest =>
    rw [hs] at h
    cases h
    exact ⟨rfl, rfl⟩

theorem recvReply_fail {st : SmtpConn} {e : String} {st' : SmtpConn}
    (h : recvReply st = .fail e st') : st' = st := by
  unfold recvReply at h
  cases hs : st.script with
  | nil => rw [hs] at h; cases h; rfl
  | cons a rest => rw [hs] at h; cases h

theorem sendCmd_sent (ph : SmtpPhase) (line : String) (st : SmtpConn) :
    (stepConn (sendCmd ph line st)).sent
      = st.sent ++ [⟨ph, st.encrypted, line⟩]
    ∧ (stepConn (sendCmd ph line st)).encrypted = st.encrypted := by
  unfold sendCmd recvReply stepConn
  cases st.script <;> simp

theorem extendsPhase_refl (p : SmtpPhase) (st : SmtpConn) :
    extendsPhase p st st :=
  ⟨rfl, fun _ hc => Or.inl hc⟩

theorem extendsPhase_trans {p : SmtpPhase} {st1 st2 st3 : SmtpConn}
    (h1 : extendsPhase p st1 st2) (h2 : extendsPhase p st2 st3) :
    extendsPhase p st1 st3 := by
  refine ⟨h2.1.trans h1.1, fun c hc => ?_⟩
  rcases h2.2 c hc with h | h
  · exact h1.2 c h
  · exact Or.inr ⟨h.1, h.2.trans h1.1⟩

theorem sendCmd_extendsPhase (ph : SmtpPhase) (line : String) (st : SmtpConn) :
    extendsPhase ph st (stepConn (sendCmd ph line st)) := by
  obtain ⟨hs, he⟩ := sendCmd_sent ph line st
  refine ⟨he, fun c hc => ?_⟩
  rw [hs] at hc
  rcases List.mem_append.mp hc with h | h
  · exact Or.inl h
  · have : c = ⟨ph, st.encrypted, line⟩ := by simpa using h
    rw [this]
    exact Or.inr ⟨rfl, rfl⟩

theorem cmdStep_extends (ph : SmtpPhase) (line : String) (st : SmtpConn)
    (k : SmtpReply → SmtpConn → SmtpStep Unit)
    (hk : ∀ r st', extendsPhase ph st' (stepConn (k r st'))) :
    extendsPhase ph st (stepConn (match sendCmd ph line st with
      | .fail e st' => .fail e st'
      | .ok r st' => k r st')) := by
  cases h : sendCmd ph line st with
  | fail e st' =>
    have hext := sendCmd_extendsPhase ph line st
    rw [h] at hext
    simpa [stepConn] using hext
  | ok r st' =>
    have hext := sendCmd_extendsPhase ph line st
    rw [h] at hext
    simp only [stepConn] at hext ⊢
    exact extendsPhase_trans hext (hk r st')

theorem smtpAuth_extendsPhase (caps : List String) (u p : String)
    (st : SmtpConn) :
    extendsPhase .auth st (stepConn (smtpAuth caps u p st)) := by
  unfold smtpAuth
  split
  · apply cmdStep_extends
    intro r st'
    split
    · simpa [stepConn] using extendsPhase_refl .auth st'
    · simpa [stepConn] using extendsPhase_refl .auth st'
  · split
    · apply cmdStep_extends
      intro r1 st1
      split
      · simpa [stepConn] using extendsPhase_refl .auth st1
      · apply cmdStep_extends
        intro r2 st2
        split
        · simpa [stepConn] using extendsPhase_refl .auth st2
        · apply cmdStep_extends
          intro r3 st3
          split
          · simpa [stepConn] using extendsPhase_refl .auth st3
          · simpa [stepConn] using extendsPhase_refl .auth st3
    · simpa [stepConn] using extendsPhase_refl .auth st

theorem sendCmd_extendsHello (line : String) (st : SmtpConn) :
    extendsHello st (stepConn (sendCmd .hello line st)) := by
  obtain ⟨hs, _⟩ := sendCmd_sent .hello line st
  intro c hc
  rw [hs] at hc
  rcases List.mem_append.mp hc with h | h
  · exact Or.inl h
  · have : c = ⟨.hello, st.encrypted, line⟩ := by simpa using h
    rw [this]
    exact Or.inr rfl

theorem extendsHello_trans {st1 st2 st3 : SmtpConn}
    (h1 : extendsHello st1 st2) (h2 : extendsHello st2 st3) :
    extendsHello st1 st3 := by
  intro c hc
  rcases h2 c hc with h | h
  · exact h1 c h
  · exact Or.inr h

theorem extendsHello_refl (st : SmtpConn) : extendsHello st st :=
  fun _ hc => Or.inl hc

theorem helloStep_extendsHello (line : String) (st : SmtpConn)
    (k : SmtpReply → SmtpConn → SmtpStep (List String))
    (hk : ∀ r st', extendsHello st' (stepConn (k r st'))) :
    extendsHello st (stepConn (match sendCmd .hello line st with
      | .fail e st' => .fail e st'
      | .ok r st' => k r st')) := by
  cases h : sendCmd .hello line st with
  | fail e st' =>
    have hext := sendCmd_extendsHello line st
    rw [h] at hext
    simpa [stepConn] using hext
  | ok r st' =>
    have hext := sendCmd_extendsHello line st
    rw [h] at hext
    simp only [stepConn] at hext ⊢
    exact extendsHello_trans hext (hk r st')

theorem smtpHello_extendsHello (st : SmtpConn) :
    extendsHello st (stepConn (smtpHello st)) := by
  unfold smtpHello
  cases h0 : recvReply st with
  | fail e st1 =>
    have h1 := recvReply_fail h0
    try dsimp only
    simp only [stepConn]
    rw [h1]
    exact extendsHello_refl st
  | ok r st1 =>
    try dsimp only
    have hb : extendsHello st st1 :=
      fun c hc => Or.inl ((recvReply_ok h0).1 ▸ hc)
    split
    · simpa [stepConn] using hb
    · refine extendsHello_trans hb ?_
      apply helloStep_extendsHello
      intro r2 st2
      split
      · simpa [stepConn] using extendsHello_refl st2
      · try dsimp only
        split
        · simpa [stepConn] using extendsHello_refl st2
        · split
          · simpa [stepConn] using extendsHello_refl st2
          · apply helloStep_extendsHello
            intro r3 st3
            split
            · simpa [stepConn] using extendsHello_refl st3
            · refine extendsHello_trans
                (extendsHello_refl st3 : extendsHello st3 st3) ?_
              have hup : extendsHello st3 { st3 with encrypted := true } :=
                fun c hc => Or.inl hc
              refine extendsHello_trans hup ?_
              apply helloStep_extendsHello
              intro r5 st5
              split
              · simpa [stepConn] using extendsHello_refl st5
              · simpa [stepConn] using extendsHello_refl st5

theorem helloStep_ok {line : String} {st : SmtpConn}
    {k : SmtpReply → SmtpConn → SmtpStep (List String)}
    {caps : List String} {stf : SmtpConn}
    (h : (match sendCmd .hello line st with
      | .fail e st' => (.fail e st' : SmtpStep (List String))
      | .ok r st' => k r st') = .ok caps stf) :
    ∃ r st', sendCmd .hello line st = .ok r st' ∧ k r st' = .ok caps stf := by
  cases hs : sendCmd .hello line st with
  | fail e st' => rw [hs] at h; cases h
  | ok r st' =>
    rw [hs] at h
    exact ⟨r, st', rfl, h⟩

theorem smtpHello_ok_encrypted {st : SmtpConn} {caps : List String}
    {st' : SmtpConn} (h : smtpHello st = .ok caps st') :
    st'.encrypted = true := by
  unfold smtpHello at h
  cases h0 : recvReply st with
  | fail e st1 => rw [h0] at h; cases h
  | ok r st1 =>
    rw [h0] at h
    try dsimp only at h
    have henc1 := (recvReply_ok h0).2
    split at h
    · cases h
    · obtain ⟨r2, st2, h2, h⟩ := helloStep_ok h
      have henc2 := (sendCmd_sent .hello ("EHLO " ++ pickEhloName) st1).2
      rw [h2] at henc2
      simp only [stepConn] at henc2
      split at h
      · cases h
      · try dsimp only at h
        split at h
        · rename_i hencTls
          cases h
          rw [henc2, henc1] at hencTls
          rw [henc2, henc1]
          exact hencTls
        · split at h
          · cases h
          · obtain ⟨r3, st3, h3, h⟩ := helloStep_ok h
            split at h
            · cases h
            · obtain ⟨r5, st5, h5, h⟩ := helloStep_ok h
              have henc5 := (sendCmd_sent .hello ("EHLO " ++ pickEhloName)
                { st3 with encrypted := true }).2
              rw [h5] at henc5
              simp only [stepConn] at henc5
              split at h
              · cases h
              · cases h
                rw [henc5]

theorem recvReply_extendsPhase (p : SmtpPhase) (st : SmtpConn) :
    extendsPhase p st (stepConn (recvReply st)) := by
  cases h : recvReply st with
  | fail e st' =>
    rw [recvReply_fail h]
    simpa [stepConn] using extendsPhase_refl p st
  | ok r st' =>
    obtain ⟨hs, he⟩ := recvReply_ok h
    exact ⟨by simp [stepConn, he], fun c hc => Or.inl (by
      simp only [stepConn] at hc
      rw [hs] at hc
      exact hc)⟩

theorem smtpMailPhase_extendsPhase (toA data : String) (st : SmtpConn) :
    extendsPhase .mail st (stepConn (smtpMailPhase toA data st)) := by
  unfold smtpMailPhase
  apply cmdStep_extends
  intro r1 st1
  split
  · simpa [stepConn] using extendsPhase_refl .mail st1
  · apply cmdStep_extends
    intro r2 st2
    split
    · simpa [stepConn] using extendsPhase_refl .mail st2
    · apply cmdStep_extends
      intro r3 st3
      split
      · simpa [stepConn] using extendsPhase_refl .mail st3
      · have hup : extendsPhase .mail st3
            { st3 with sent := st3.sent ++ [⟨.mail, st3.encrypted, data⟩] } := by
          refine ⟨rfl, fun c hc => ?_⟩
          simp only at hc
          rcases List.mem_append.mp hc with hcc | hcc
          · exact Or.inl hcc
          · have : c = ⟨.mail, st3.encrypted, data⟩ := by simpa using hcc
            rw [this]
            exact Or.inr ⟨rfl, rfl⟩
        refine extendsPhase_trans hup ?_
        cases h4 : recvReply
            { st3 with sent := st3.sent ++ [⟨.mail, st3.encrypted, data⟩] } with
        | fail e st4 =>
          have hext := recvReply_extendsPhase .mail
            { st3 with sent := st3.sent ++ [⟨.mail, st3.encrypted, data⟩] }
          rw [h4] at hext
          try dsimp only
          simpa [stepConn] using hext
        | ok r4 st4 =>
          have hext := recvReply_extendsPhase .mail
            { st3 with sent := st3.sent ++ [⟨.mail, st3.encrypted, data⟩] }
          rw [h4] at hext
          simp only [stepConn] at hext
          try dsimp only
          refine extendsPhase_trans hext ?_
          split
          · simpa [stepConn] using extendsPhase_refl .mail st4
          · cases h5 : sendCmd .mail "QUIT" st4 with
            | fail e st5 =>
              have hext5 := sendCmd_extendsPhase .mail "QUIT" st4
              rw [h5] at hext5
              simpa [stepConn] using hext5
            | ok r5 st5 =>
              have hext5 := sendCmd_extendsPhase .mail "QUIT" st4
              rw [h5] at hext5
              simpa [stepConn] using hext5

theorem smtpHello_no_starttls (r0 r1 : SmtpReply) (rest : List SmtpReply)
    (st : SmtpConn) (hscript : st.script = r0 :: r1 :: rest)
    (henc : st.encrypted = false)
    (hcap : hasStartTls (parseEhloCaps r1.lines) = false) :
    ∃ e st', smtpHello st = .fail e st' := by
  have h0 : recvReply st = .ok r0 { st with script := r1 :: rest } := by
    unfold recvReply
    rw [hscript]
  have h1 : sendCmd .hello ("EHLO " ++ pickEhloName) { st with script := r1 :: rest }
      = .ok r1 { st with
          script := rest,
          sent := st.sent ++ [⟨.hello, st.encrypted, "EHLO " ++ pickEhloName⟩] } := by
    unfold sendCmd recvReply
    rfl
  unfold smtpHello
  rw [h0]
  try dsimp only
  split
  · exact ⟨_, _, rfl⟩
  · rw [h1]
    try dsimp only
    split
    · exact ⟨_, _, rfl⟩
    · simp only [henc, hcap, Bool.not_false, if_false, if_true, Bool.false_eq_true,
        if_neg, ite_false, ite_true]
      exact ⟨_, _, rfl⟩

/-- C6: every command written by the authentication phase is written on
an encrypted connection; and when the transport is not implicit TLS and
the server does not advertise STARTTLS, the delivery fails and no
authentication command is ever written. -/
theorem smtp_no_plaintext_auth :
    (∀ (port : Nat) (host username password toA subject text msgId dateStr :
        String) (script : List SmtpReply),
      ∀ c ∈ (sendMailSmtp port host username password toA subject text
          msgId dateStr script).1.sent,
        c.phase = .auth → c.encrypted = true)
    ∧ (∀ (port : Nat) (host username password toA subject text msgId dateStr :
        String) (r0 r1 : SmtpReply) (rest : List SmtpReply),
        port ≠ 465 →
        hasStartTls (parseEhloCaps r1.lines) = false →
        (∃ e, (sendMailSmtp port host username password toA subject text
            msgId dateStr (r0 :: r1 :: rest)).2 = .error e)
        ∧ ∀ c ∈ (sendMailSmtp port host username password toA subject text
            msgId dateStr (r0 :: r1 :: rest)).1.sent, c.phase ≠ .auth) := by
  have hmain : ∀ (port : Nat) (host username password toA subject text msgId
      dateStr : String) (script : List SmtpReply),
      ∀ c ∈ (sendMailSmtp port host username password toA subject text
          msgId dateStr script).1.sent,
        c.phase = .hello
        ∨ (c.phase = .auth ∧ c.encrypted = true)
        ∨ c.phase = .mail := by
    intro port host username password toA subject text msgId dateStr script c hc
    unfold sendMailSmtp at hc
    try dsimp only at hc
    split at hc
    · simp at hc
    · split at hc
      · simp at hc
      · split at hc
        · simp at hc
        · split at hc
          · simp at hc
          · set st0 : SmtpConn :=
              { script := script, sent := [], encrypted := port == 465 }
              with hst0
            cases hH : smtpHello st0 with
            | fail e stf =>
              rw [hH] at hc
              simp only at hc
              have hext := smtpHello_extendsHello st0
              rw [hH] at hext
              simp only [stepConn] at hext
              rcases hext c hc with hcc | hcc
              · simp [hst0] at hcc
              · exact Or.inl hcc
            | ok caps st1 =>
              rw [hH] at hc
              simp only at hc
              have henc1 : st1.encrypted = true := smtpHello_ok_encrypted hH
              have hhello : ∀ c ∈ st1.sent, c.phase = .hello := by
                intro c hc1
                have hext := smtpHello_extendsHello st0
                rw [hH] at hext
                simp only [stepConn] at hext
                rcases hext c hc1 with hcc | hcc
                · simp [hst0] at hcc
                · exact hcc
              cases hA : smtpAuth caps (jsTrim username) (jsTrim password) st1 with
              | fail e stf =>
                rw [hA] at hc
                simp only at hc
                have hext := smtpAuth_extendsPhase caps (jsTrim username)
                  (jsTrim password) st1
                rw [hA] at hext
                simp only [stepConn] at hext
                rcases hext.2 c hc with hcc | hcc
                · exact Or.inl (hhello c hcc)
                · exact Or.inr (Or.inl ⟨hcc.1, hcc.2.trans henc1⟩)
              | ok u st2 =>
                rw [hA] at hc
                simp only at hc
                have hauth : ∀ c ∈ st2.sent,
                    c.phase = .hello ∨ (c.phase = .auth ∧ c.encrypted = true) := by
                  intro c hc2
                  have hext := smtpAuth_extendsPhase caps (jsTrim username)
                    (jsTrim password) st1
                  rw [hA] at hext
                  simp only [stepConn] at hext
                  rcases hext.2 c hc2 with hcc | hcc
                  · exact Or.inl (hhello c hcc)
                  · exact Or.inr ⟨hcc.1, hcc.2.trans henc1⟩
                cases hM : smtpMailPhase (jsTrim toA)
                    (buildDataPayload (jsTrim toA) subject text msgId dateStr)
                    st2 with
                | fail e stf =>
                  rw [hM] at hc
                  simp only at hc
                  have hext := smtpMailPhase_extendsPhase (jsTrim toA)
                    (buildDataPayload (jsTrim toA) subject text msgId dateStr) st2
                  rw [hM] at hext
                  simp only [stepConn] at hext
                  rcases hext.2 c hc with hcc | hcc
                  · rcases hauth c hcc with h | h
                    · exact Or.inl h
                    · exact Or.inr (Or.inl h)
                  · exact Or.inr (Or.inr hcc.1)
                | ok u2 stf =>
                  rw [hM] at hc
                  simp only at hc
                  have hext := smtpMailPhase_extendsPhase (jsTrim toA)
                    (buildDataPayload (jsTrim toA) subject text msgId dateStr) st2
                  rw [hM] at hext
                  simp only [stepConn] at hext
                  rcases hext.2 c hc with hcc | hcc
                  · rcases hauth c hcc with h | h
                    · exact Or.inl h
                    · exact Or.inr (Or.inl h)
                  · exact Or.inr (Or.inr hcc.1)
  constructor
  · intro port host username password toA subject text msgId dateStr script c hc hphase
    rcases hmain port host username password toA subject text msgId dateStr
        script c hc with h | h | h
    · rw [hphase] at h; cases h
    · exact h.2
    · rw [hphase] at h; cases h
  · intro port host username password toA subject text msgId dateStr r0 r1 rest
      hport hcap
    have henc : (port == 465) = false := by
      cases hpe : port == 465 with
      | false => rfl
      | true => exact absurd (eq_of_beq hpe) hport
    unfold sendMailSmtp
    try dsimp only
    rw [henc]
    split
    · exact ⟨⟨_, rfl⟩, by intro c hc; simp at hc⟩
    · split
      · exact ⟨⟨_, rfl⟩, by intro c hc; simp at hc⟩
      · split
        · exact ⟨⟨_, rfl⟩, by intro c hc; simp at hc⟩
        · split
          · exact ⟨⟨_, rfl⟩, by intro c hc; simp at hc⟩
          · obtain ⟨e, st', hfail⟩ := smtpHello_no_starttls r0 r1 rest
              { script := r0 :: r1 :: rest, sent := [], encrypted := false }
              rfl rfl hcap
            have hext := smtpHello_extendsHello
              { script := r0 :: r1 :: rest, sent := [], encrypted := false }
            rw [hfail] at hext
            simp only [stepConn] at hext
            rw [hfail]
            refine ⟨⟨e, rfl⟩, ?_⟩
            intro c hc
            rcases hext c hc with hcc | hcc
            · simp at hcc
            · rw [hcc]
              intro hx
              cases hx

theorem smtp_no_plaintext_auth_witness :
    ((sendMailSmtp 465 "smtp.example.com" "user" "pass" "a@example.com" "s" "t"
        "<m@id>" "d" [⟨220, ["220 ok"]⟩, ⟨250, ["250-AUTH PLAIN LOGIN", "250 OK"]⟩,
          ⟨235, ["235 ok"]⟩, ⟨250, ["250 ok"]⟩, ⟨250, ["250 ok"]⟩,
          ⟨354, ["354 go"]⟩, ⟨250, ["250 ok"]⟩, ⟨221, ["221 bye"]⟩]).1.sent.getD 1
        ⟨.hello, false, ""⟩).encrypted = true
    ∧ (∃ e, (sendMailSmtp 587 "smtp.example.com" "user" "pass" "a@example.com"
        "s" "t" "<m@id>" "d"
        [⟨220, ["220 ok"]⟩, ⟨250, ["250-PIPELINING", "250 OK"]⟩]).2 = .error e)
    ∧ ((sendMailSmtp 587 "smtp.example.com" "user" "pass" "a@example.com"
        "s" "t" "<m@id>" "d"
        [⟨220, ["220 ok"]⟩, ⟨250, ["250-PIPELINING", "250 OK"]⟩]).1.sent.getD 0
        ⟨.auth, true, ""⟩).phase ≠ .auth := by
  refine ⟨?_, ?_, ?_⟩
  · exact smtp_no_plaintext_auth.1 465 "smtp.example.com" "user" "pass"
      "a@example.com" "s" "t" "<m@id>" "d"
      [⟨220, ["220 ok"]⟩, ⟨250, ["250-AUTH PLAIN LOGIN", "250 OK"]⟩,
        ⟨235, ["235 ok"]⟩, ⟨250, ["250 ok"]⟩, ⟨250, ["250 ok"]⟩,
        ⟨354, ["354 go"]⟩, ⟨250, ["250 ok"]⟩, ⟨221, ["221 bye"]⟩]
      _ (by decide) (by decide)
  · exact (smtp_no_plaintext_auth.2 587 "smtp.example.com" "user" "pass"
      "a@example.com" "s" "t" "<m@id>" "d" ⟨220, ["220 ok"]⟩
      ⟨250, ["250-PIPELINING", "250 OK"]⟩ [] (by decide) (by decide)).1
  · exact (smtp_no_plaintext_auth.2 587 "smtp.example.com" "user" "pass"
      "a@example.com" "s" "t" "<m@id>" "d" ⟨220, ["220 ok"]⟩
      ⟨250, ["250-PIPELINING", "250 OK"]⟩ [] (by decide) (by decide)).2
      _ (by decide)

theorem runDeliveries_attempted (jobs : List (EmailJob × Except String Unit)) :
    (runDeliveries jobs).attempted = jobs.length := by
  induction jobs with
  | nil => rfl
  | cons jr rest ih =>
    cases h : jr.2 <;> simp [runDeliveries, h, ih]

theorem runDeliveries_failures (jobs : List (EmailJob × Except String Unit)) :
    (runDeliveries jobs).failures = jobs.filterMap
      (fun jr => match jr.2 with
        | .ok _ => none
        | .error e => some (jr.1.toAddr, e)) := by
  induction jobs with
  | nil => rfl
  | cons jr rest ih =>
    cases h : jr.2 <;> simp [runDeliveries, h, ih, List.filterMap_cons]

theorem runDeliveries_sent_balance (jobs : List (EmailJob × Except String Unit)) :
    (runDeliveries jobs).sent + (runDeliveries jobs).failures.length
      = (runDeliveries jobs).attempted := by
  induction jobs with
  | nil => rfl
  | cons jr rest ih =>
    cases h : jr.2 <;> simp [runDeliveries, h] <;> omega

theorem runDeliveries_append (xs ys : List (EmailJob × Except String Unit)) :
    runDeliveries (xs ++ ys) =
      ⟨(runDeliveries xs).attempted + (runDeliveries ys).attempted,
        (runDeliveries xs).sent + (runDeliveries ys).sent,
        (runDeliveries xs).failures ++ (runDeliveries ys).failures⟩ := by
  induction xs with
  | nil =>
    cases hys : runDeliveries ys with
    | mk a s f => simp [runDeliveries, hys]
  | cons jr rest ih =>
    cases h : jr.2 with
    | ok u =>
      simp only [List.cons_append, runDeliveries, h, List.append_eq, ih]
      simp [DeliveryReport.mk.injEq]
      omega
    | error e =>
      simp only [List.cons_append, runDeliveries, h, List.append_eq, ih]
      simp [DeliveryReport.mk.injEq]
      omega

/-- C7: each job's failure is recorded as a (recipient, message) pair
without stopping the remaining jobs — every job is attempted, the
failures are exactly the failing jobs in order, the counters balance,
the run over a concatenation is the independent combination of the two
runs, and the response reports the scanned/matched counts and the
attempted/sent/failed counters with the failure list capped at 25
entries; a server replying 550 to RCPT TO yields the recorded error
message `SMTP RCPT TO failed (550)`. -/
theorem delivery_failures_isolated :
    (∀ jobs : List (EmailJob × Except String Unit),
      (runDeliveries jobs).attempted = jobs.length
      ∧ (runDeliveries jobs).failures = jobs.filterMap
          (fun jr => match jr.2 with
            | .ok _ => none
            | .error e => some (jr.1.toAddr, e))
      ∧ (runDeliveries jobs).sent + (runDeliveries jobs).failures.length
          = (runDeliveries jobs).attempted)
    ∧ (∀ xs ys : List (EmailJob × Except String Unit),
        runDeliveries (xs ++ ys) =
          ⟨(runDeliveries xs).attempted + (runDeliveries ys).attempted,
            (runDeliveries xs).sent + (runDeliveries ys).sent,
            (runDeliveries xs).failures ++ (runDeliveries ys).failures⟩)
    ∧ (∀ (sa ma : Nat) (jobs : List (EmailJob × Except String Unit)),
        (emailPackResponse sa ma jobs).scannedAccounts = sa
        ∧ (emailPackResponse sa ma jobs).matchedAccounts = ma
        ∧ (emailPackResponse sa ma jobs).attempted = jobs.length
        ∧ (emailPackResponse sa ma jobs).sent
            + (runDeliveries jobs).failures.length = jobs.length
        ∧ (emailPackResponse sa ma jobs).failed
            = (runDeliveries jobs).failures.length
        ∧ (emailPackResponse sa ma jobs).failures
            = (runDeliveries jobs).failures.take 25
        ∧ (emailPackResponse sa ma jobs).failures.length ≤ 25)
    ∧ (sendMailSmtp 465 "smtp.example.com" "user" "pass" "a@example.com"
        "s" "t" "<m@id>" "d"
        [⟨220, ["220 ok"]⟩, ⟨250, ["250-AUTH PLAIN LOGIN", "250 OK"]⟩,
          ⟨235, ["235 ok"]⟩, ⟨250, ["250 ok"]⟩, ⟨550, ["550 no"]⟩]).2
      = .error "SMTP RCPT TO failed (550)" := by
  refine ⟨?_, runDeliveries_append, ?_, by rfl⟩
  · intro jobs
    exact ⟨runDeliveries_attempted jobs, runDeliveries_failures jobs,
      runDeliveries_sent_balance jobs⟩
  · intro sa ma jobs
    refine ⟨rfl, rfl, ?_, ?_, rfl, rfl, ?_⟩
    · exact runDeliveries_attempted jobs
    · rw [show (emailPackResponse sa ma jobs).sent = (runDeliveries jobs).sent
        from rfl, runDeliveries_sent_balance jobs]
      exact runDeliveries_attempted jobs
    · rw [show (emailPackResponse sa ma jobs).failures
        = (runDeliveries jobs).failures.take 25 from rfl]
      simp [List.length_take]

end SpiritTracker
